import Mathlib

/-!
Verification of the jetbrains-http-to-postman converter.

The program is a line-oriented state machine (`convertHTTPToPostman` in the
main source file) that turns JetBrains `.http` request files into Postman
collection documents.  This file is a shallow embedding of that program:
Go strings are modelled as `List Char`, the helpers of Go's `strings`
package that the program uses are re-implemented with the same semantics,
the regular expressions of the program are implemented as deterministic
matchers (each one is derivable from the concrete pattern, see the
comments), and the scanning loop becomes a fold of a `step` function over
the list of input lines.  File input, JSON serialisation and the output
write are external collaborators and stay outside the model: the
conversion takes the list of lines of the input file and the result of
loading the environment file (`none` when the load failed), and returns
either an error (carrying the detected variable names, as the Go error
message does) or the in-memory collection document.

Go map iteration order is not deterministic; where the program ranges over
a map (the leftover local variables) the model takes an explicit iteration
order function, constrained in theorems to produce a permutation of the
table, which is exactly what a Go map range guarantees.
-/

/-- Strings of the modelled program: Go strings restricted to the
character sequences the scanner produces (one line, no newline inside). -/
abbrev Str := List Char

/-- Conversion of Lean string literals into the model's strings. -/
def str (s : String) : Str := s.toList

/-- Left brace character (written by code to avoid brace escapes in strings). -/
def lb : Char := Char.ofNat 123

/-- Right brace character. -/
def rb : Char := Char.ofNat 125

/-- Newline character. -/
def nl : Char := Char.ofNat 10

/-- Whitespace as tested by `unicode.IsSpace` for the ASCII range, which is
what `strings.TrimSpace` and `strings.Fields` use. -/
def isSp (c : Char) : Bool :=
  c = ' ' || c = '\t' || c = '\n' || c = '\r' || c = '\x0b' || c = '\x0c'

/-- Whitespace of the Go regexp class backslash-s: tab, newline, form feed,
carriage return and space. -/
def isRegexSp (c : Char) : Bool :=
  c = ' ' || c = '\t' || c = '\n' || c = '\x0c' || c = '\r'

/-- Word characters of the Go regexp class backslash-w. -/
def isWordChar (c : Char) : Bool :=
  c.isAlphanum || c = '_'

/-- `strings.TrimSpace`. -/
def wtrim (s : Str) : Str :=
  ((s.dropWhile isSp).reverse.dropWhile isSp).reverse

/-- Splitting on every character satisfying a predicate, keeping empty
fields; `strings.Split` with a one-character separator is the instance
where the predicate is equality with the separator, and `strings.Fields`
filters the empty fields out of the instance for white space. -/
def splitOnP (p : Char → Bool) : Str → List Str
  | [] => [[]]
  | c :: t =>
    if p c then [] :: splitOnP p t
    else
      match splitOnP p t with
      | h :: r => (c :: h) :: r
      | [] => [[c]]

/-- `strings.Split` with a one-character separator. -/
def splitOnCh (c : Char) (s : Str) : List Str :=
  splitOnP (fun a => a = c) s

/-- `strings.Fields`. -/
def fields (s : Str) : List Str :=
  (splitOnP isSp s).filter (fun f => !f.isEmpty)

/-- `strings.SplitN (s, sep, 2)` for a one-character separator, returning
the two parts when the separator occurs (the program always checks that
the result has length 2, which is exactly the `some` case here). -/
def splitFirst (c : Char) : Str → Option (Str × Str)
  | [] => none
  | x :: t =>
    if x = c then some ([], t)
    else
      match splitFirst c t with
      | some (a, b) => some (x :: a, b)
      | none => none

/-- `strings.Contains` with a one-character substring. -/
def containsCh (c : Char) : Str → Bool
  | [] => false
  | x :: t => x = c || containsCh c t

/-- `strings.HasPrefix`. -/
def hasPrefixS (pre s : Str) : Bool := pre.isPrefixOf s

/-- `strings.HasSuffix`. -/
def hasSuffixS (suf s : Str) : Bool := suf.isSuffixOf s

/-- `strings.Contains` for an arbitrary substring. -/
def containsSub (sub : Str) : Str → Bool
  | [] => sub.isEmpty
  | c :: t => sub.isPrefixOf (c :: t) || containsSub sub t

/-- Fuel-driven worker of `splitOnSub`; every recursive call is on a
strict suffix of the input, so fuel equal to the input length always
suffices and the zero-fuel case is never reached from `splitOnSub`. -/
def splitOnSubF (sep : Str) : Nat → Str → List Str
  | _, [] => [[]]
  | 0, s => [s]
  | fuel + 1, c :: t =>
    if sep.isPrefixOf (c :: t) ∧ 0 < sep.length then
      [] :: splitOnSubF sep fuel (t.drop (sep.length - 1))
    else
      match splitOnSubF sep fuel t with
      | h :: r => (c :: h) :: r
      | [] => [[c]]

/-- `strings.Split` with a multi-character separator (used for the
protocol separator).  Occurrences are consumed left to right without
overlap, like the Go function. -/
def splitOnSub (sep s : Str) : List Str := splitOnSubF sep s.length s

/-- Fuel-driven worker of `replaceAllSub`; every recursive call is on a
strict suffix, so fuel equal to the input length always suffices. -/
def replAuxF (sub repl : Str) : Nat → Str → Str
  | _, [] => []
  | 0, s => s
  | fuel + 1, c :: t =>
    if sub.isPrefixOf (c :: t) ∧ 0 < sub.length then
      repl ++ replAuxF sub repl fuel (t.drop (sub.length - 1))
    else
      c :: replAuxF sub repl fuel t

/-- `strings.ReplaceAll` (with a non-empty pattern), leftmost
non-overlapping occurrences; the program only calls it with the non-empty
pattern of a brace-delimited variable reference. -/
def replaceAllSub (s sub repl : Str) : Str :=
  if sub.isEmpty then s else replAuxF sub repl s.length s

/-- Length bound for `dropWhile`, used for the termination of the
variable scanners below. -/
theorem dropWhile_len_le (p : Char → Bool) (l : Str) :
    (l.dropWhile p).length ≤ l.length := by
  induction l with
  | nil => simp [List.dropWhile]
  | cons c t ih =>
    simp only [List.dropWhile]
    cases p c <;> simp <;> omega

/-- The matcher of the variable-reference regexp (double brace, one or
more word characters, double brace), returning all captured names in
first-to-last order with non-overlapping matches, exactly as
`FindAllStringSubmatch` does: at each position the double brace must be
followed by a non-empty run of word characters that is immediately
followed by the closing double brace (the pattern has no other way to
match, since a shorter word run would put a word character where a brace
is required). -/
def scanVarsF : Nat → Str → List Str
  | _, [] => []
  | 0, _ => []
  | fuel + 1, c :: rest =>
    if c = lb then
      match rest with
      | r0 :: r1 =>
        if r0 = lb then
          let w := r1.takeWhile isWordChar
          match r1.dropWhile isWordChar with
          | d0 :: d1 :: r2 =>
            if d0 = rb ∧ d1 = rb ∧ !w.isEmpty then w :: scanVarsF fuel r2
            else scanVarsF fuel rest
          | _ => scanVarsF fuel rest
        else scanVarsF fuel rest
      | [] => []
    else scanVarsF fuel rest

/-- The matcher of the variable-reference regexp over the whole text;
every recursive call of the worker is on a strict suffix, so fuel equal
to the text length always suffices. -/
def scanVars (s : Str) : List Str := scanVarsF s.length s

/-- Association lookup: a read from a Go `map[string]string` (or of the
outer environment map), modelled on the entry list of the map. -/
def lookupA {α : Type} : List (Str × α) → Str → Option α
  | [], _ => none
  | (k', v') :: t, k => if k' = k then some v' else lookupA t k

/-- A write `m[k] = v` into a Go map modelled on the entry list: replaces
the existing entry for the key or appends a new one, keeping keys unique. -/
def upsert (m : List (Str × Str)) (k v : Str) : List (Str × Str) :=
  match m with
  | [] => [(k, v)]
  | (k', v') :: t => if k' = k then (k, v) :: t else (k', v') :: upsert t k v

/-- Decimal digits of a natural number. -/
def natStr (n : Nat) : Str := Nat.toDigits 10 n

/-- The generated request names. -/
def requestN (n : Nat) : Str := str "request-" ++ natStr n

/-- The full text the prescan sees: every line followed by a newline,
exactly as the first scanner loop rebuilds the file content. -/
def linesText (lines : List Str) : Str :=
  match lines with
  | [] => []
  | l :: rest => l ++ nl :: linesText rest

/-- Postman header entry. -/
structure Header where
  key : Str
  value : Str
  htype : Str
deriving DecidableEq

/-- Postman query parameter. -/
structure QueryParam where
  key : Str
  value : Str
deriving DecidableEq

/-- Collection (or path) variable entry. -/
structure Variable where
  key : Str
  value : Str
  vtype : Str
deriving DecidableEq

/-- Request body; `optionsLang` models the constant options object the
program attaches (a raw-language hint), `some l` standing for the nested
map that declares language `l` and `none` for an absent options map. -/
structure Body where
  mode : Str := []
  raw : Str := []
  optionsLang : Option Str := none
deriving DecidableEq

/-- Decomposed URL. -/
structure URL where
  raw : Str := []
  protocol : Str := []
  host : List Str := []
  path : List Str := []
  query : List QueryParam := []
  variable' : List Variable := []
deriving DecidableEq

/-- Request payload. -/
structure Request where
  method : Str := []
  header : List Header := []
  body : Body := {}
  url : URL := {}
deriving DecidableEq

/-- Collection item: either a request item or a folder with nested items. -/
structure Item where
  name : Str := []
  description : Str := []
  item : List Item := []
  request : Request := {}

/-- A named group of requests (folder source; the source type is named
`Group`, which is taken by the ambient library). -/
structure RGroup where
  gname : Str
  gitems : List Item

/-- Collection metadata. -/
structure Info where
  name : Str
  schema : Str

/-- The output document. -/
structure Collection where
  info : Info
  items : List Item
  variable' : List Variable

/-- The environment file content: environment name to variable table. -/
abbrev Environment := List (Str × List (Str × Str))

/-- The fixed schema identifier written into every collection. -/
def schemaURL : Str :=
  str "https://schema.getpostman.com/json/collection/v2.1.0/collection.json"

/-- The HTTP verbs of the method-line regexp, in the order of the
alternation. -/
def verbs : List Str :=
  [str "GET", str "PUT", str "POST", str "DELETE", str "OPTIONS"]

/-- After the verb the method-line regexp requires one or more regexp
whitespace characters followed by at least one further character; on a
newline-free line that is equivalent to: the remainder has length at
least two and starts with a whitespace character. -/
def restOkay : Str → Bool
  | c :: _ :: _ => isRegexSp c
  | _ => false

/-- Matcher of the method-line regexp (anchored alternation of the verbs,
then whitespace, then at least one character).  No verb is a prefix of
another, so the alternation is a plain disjunction of prefix tests. -/
def isMethodLine (l : Str) : Bool :=
  verbs.any fun v => hasPrefixS v l && restOkay (l.drop v.length)

/-- Matcher of the group-annotation regexp: hash, any run of whitespace,
the literal group keyword, at least one whitespace, then the non-empty
capture running to the end of the line.  The whitespace runs are maximal:
a shorter run would put a whitespace character where the keyword (or the
capture's first character, which the maximal run ends before) is matched,
and the keyword and capture cannot start with whitespace. -/
def groupMatch (l : Str) : Option Str :=
  match l with
  | [] => none
  | c :: rest =>
    if c = '#' then
      let r1 := rest.dropWhile isRegexSp
      if hasPrefixS (str "@group_name") r1 then
        let r2 := r1.drop (str "@group_name").length
        match r2 with
        | d :: _ =>
          if isRegexSp d then
            let nm := r2.dropWhile isRegexSp
            if nm.isEmpty then none else some nm
          else none
        | [] => none
      else none
    else none

/-- Matcher of the name-annotation regexp: like the group annotation but
the capture is a non-empty run of word characters that must reach the end
of the line.  Lines are whitespace-trimmed before matching, so a
non-empty remainder never consists solely of whitespace. -/
def nameMatch (l : Str) : Option Str :=
  match l with
  | [] => none
  | c :: rest =>
    if c = '#' then
      let r1 := rest.dropWhile isRegexSp
      if hasPrefixS (str "@name") r1 then
        let r2 := r1.drop (str "@name").length
        match r2 with
        | d :: _ =>
          if isRegexSp d then
            let r3 := r2.dropWhile isRegexSp
            let w := r3.takeWhile isWordChar
            if !w.isEmpty && (r3.drop w.length).isEmpty then some w else none
          else none
        | [] => none
      else none
    else none

/-- Matcher of the description regexp: two slashes, a maximal run of
whitespace, then the non-empty capture to the end of the line.  Lines are
whitespace-trimmed before matching, so a non-empty remainder never
consists solely of whitespace. -/
def descMatch (l : Str) : Option Str :=
  match l with
  | c0 :: c1 :: rest =>
    if c0 = '/' ∧ c1 = '/' then
      let r := rest.dropWhile isRegexSp
      if r.isEmpty then none else some r
    else none
  | _ => none

/-- Matcher of the local-variable regexp: at sign, non-empty maximal word
run (the name), optional whitespace, equals sign, optional whitespace,
then the non-empty capture to the end of the line (a shorter word run
would put a word character where the equals sign is required).  Lines are
whitespace-trimmed before matching. -/
def localVarMatch (l : Str) : Option (Str × Str) :=
  match l with
  | [] => none
  | c :: rest =>
    if c = '@' then
      let w := rest.takeWhile isWordChar
      if w.isEmpty then none
      else
        match (rest.drop w.length).dropWhile isRegexSp with
        | '=' :: r2 =>
          let v := r2.dropWhile isRegexSp
          if v.isEmpty then none else some (w, v)
        | _ => none
    else none

/-- The literal opening of the variable-setter call pattern, up to and
including the first double quote. -/
def setterLit : Str := str "request.variables.set(" ++ ['"']

/-- One attempted match of the variable-setter regexp at the start of the
string: the literal call opening, a non-empty maximal run of non-quote
characters (the name capture), quote and comma, a maximal whitespace run,
a quote, a non-empty maximal run of non-quote characters (the value
capture), then quote and closing parenthesis.  The runs are maximal for
the same reason as in the other matchers: shortening one puts a non-quote
character where a quote is required. -/
def trySetter (s : Str) : Option (Str × Str) :=
  if hasPrefixS setterLit s then
    let r1 := s.drop setterLit.length
    let n := r1.takeWhile (fun c => !(c = '"'))
    if n.isEmpty then none
    else
      match r1.drop n.length with
      | '"' :: ',' :: r2 =>
        match r2.dropWhile isRegexSp with
        | '"' :: r4 =>
          let v := r4.takeWhile (fun c => !(c = '"'))
          if v.isEmpty then none
          else
            match r4.drop v.length with
            | '"' :: ')' :: _ => some (n, v)
            | _ => none
        | _ => none
      | _ => none
  else none

/-- Leftmost match of the variable-setter regexp: try every start
position from the left, as `FindStringSubmatch` does. -/
def scanSetter : Str → Option (Str × Str)
  | [] => none
  | c :: rest =>
    match trySetter (c :: rest) with
    | some nv => some nv
    | none => scanSetter rest

/-- The effect of scanning one line for the variable-setter pattern on
the request-variable table (shared by the three script-block cases). -/
def applySetter (line : Str) (rv : List (Str × Str)) : List (Str × Str) :=
  match scanSetter line with
  | some (n, v) => upsert rv n v
  | none => rv

/-- The symbolic base-URL token (lower-case variant). -/
def baseUrlTok : Str := [lb, lb] ++ str "baseUrl" ++ [rb, rb]

/-- The symbolic base-URL token (upper-case variant). -/
def baseURLTok : Str := [lb, lb] ++ str "baseURL" ++ [rb, rb]

/-- The variable-resolution of `parseURL` for one path variable: the
request-scoped value if present and non-empty, else the file-local value
if present, else empty. -/
def pathVarValue (localVars requestVars : List (Str × Str)) (n : Str) : Str :=
  let rv := match lookupA requestVars n with
    | some v => v
    | none => []
  if rv.isEmpty then
    match lookupA localVars n with
    | some v => v
    | none => []
  else rv

/-- Rewriting of one path segment in the base-URL branch of `parseURL`:
each variable reference found in the segment is replaced (everywhere in
the segment) by a colon-prefixed path parameter, and one path-variable
entry is recorded per match. -/
def convertSegment (localVars requestVars : List (Str × Str)) (part : Str) :
    Str × List Variable :=
  List.foldl
    (fun acc n =>
      (replaceAllSub acc.1 ([lb, lb] ++ n ++ [rb, rb]) (':' :: n),
       acc.2 ++ [{ key := n, value := pathVarValue localVars requestVars n,
                   vtype := str "string" }]))
    (part, []) (scanVars part)

/-- `parseURL`: populates protocol, host, path and path variables of a
URL from the raw URL string, leaving the other fields (in particular
`raw` and `query`) untouched, exactly as the Go function only assigns
those fields. -/
def parseURL (rawURL : Str) (u : URL) (localVars requestVars : List (Str × Str)) :
    URL :=
  if containsSub baseUrlTok rawURL || containsSub baseURLTok rawURL then
    let u1 := { u with host := [baseUrlTok] }
    let pathPart :=
      if containsCh '?' rawURL then (splitOnCh '?' rawURL).headD [] else rawURL
    if containsCh '/' pathPart then
      let parts := splitOnCh '/' pathPart
      if 1 < parts.length then
        let pp := List.foldl
          (fun acc part =>
            if part.isEmpty then acc
            else if !(scanVars part).isEmpty then
              let cs := convertSegment localVars requestVars part
              (acc.1 ++ [cs.1], acc.2 ++ cs.2)
            else (acc.1 ++ [part], acc.2))
          (([] : List Str), ([] : List Variable)) (parts.drop 1)
        let u2 := { u1 with path := pp.1 }
        if pp.2.isEmpty then u2 else { u2 with variable' := pp.2 }
      else u1
    else u1
  else if containsSub (str "://") rawURL then
    match splitOnSub (str "://") rawURL with
    | protocol :: c1 :: _ =>
      let u1 := { u with protocol := protocol }
      let cleanURL := if containsCh '?' c1 then (splitOnCh '?' c1).headD [] else c1
      if containsCh '/' cleanURL then
        match splitOnCh '/' cleanURL with
        | h :: rest =>
          let u2 := { u1 with host := splitOnCh '.' h }
          if rest.isEmpty then u2 else { u2 with path := rest }
        | [] => u1
      else { u1 with host := splitOnCh '.' cleanURL }
    | _ => u
  else
    match splitOnCh '/' rawURL with
    | h :: _ => { u with host := splitOnCh '.' h }
    | [] => u

/-- One query pair of the method-line handler: pairs without an equals
sign are skipped, and for the others the key is the field before the
first equals sign and the value is the field between the first and the
second one (`strings.Split` on every equals sign, then elements 0 and 1),
both whitespace-trimmed. -/
def parseQueryPair (p : Str) : Option QueryParam :=
  if containsCh '=' p then
    match splitOnCh '=' p with
    | k :: v :: _ => some { key := wtrim k, value := wtrim v }
    | _ => none
  else none

/-- Query-parameter extraction of the method-line handler: everything
between the first and second question mark, split on ampersands. -/
def parseQueryParams (rawURL : Str) : List QueryParam :=
  if containsCh '?' rawURL then
    match splitOnCh '?' rawURL with
    | _ :: qs :: _ => (splitOnCh '&' qs).filterMap parseQueryPair
    | _ => []
  else []

/-- The zero value of `Item` (the recursive structure cannot carry field
defaults). -/
def emptyItem : Item :=
  { name := [], description := [], item := [], request := {} }

/-- The mutable scanning state of `convertHTTPToPostman`: all the loop
variables of the Go function. -/
structure PState where
  groups : List RGroup := []
  currentGroup : Option RGroup := none
  allItems : List Item := []
  hasGroupSeparators : Bool := false
  item : Item := emptyItem
  req : Request := {}
  headers : List Header := []
  body : Body := {}
  url : URL := {}
  query : List QueryParam := []
  data : Str := []
  count : Nat := 0
  startedJSON : Bool := false
  currentRequestName : Str := []
  currentRequestDescription : Str := []
  localVariables : List (Str × Str) := []
  requestVariables : List (Str × Str) := []
  inRequestScript : Bool := false

/-- The item sealed on a separator line (or at end of input): request
fields attached, the explicit name or the generated sequential one, and
the pending description when non-empty. -/
def sealItem (s : PState) : Item :=
  let u2 : URL := { s.url with query := s.query }
  let req : Request :=
    { s.req with header := s.headers, body := s.body, url := u2 }
  let it : Item :=
    { s.item with
      request := req,
      name := (if s.currentRequestName.isEmpty then requestN (s.count + 1)
               else s.currentRequestName) }
  if s.currentRequestDescription.isEmpty then it
  else { it with description := s.currentRequestDescription }

/-- Sealing also advances the name counter when the sequential name was
used. -/
def sealCount (s : PState) : Nat :=
  if s.currentRequestName.isEmpty then s.count + 1 else s.count

/-- Appends the sealed item to the current group when grouping is active
and a group is open, else to the flat item list. -/
def appendSealed (s : PState) : PState :=
  let it := sealItem s
  match s.hasGroupSeparators, s.currentGroup with
  | true, some g =>
    { s with
      currentGroup := some { g with gitems := g.gitems ++ [it] },
      count := sealCount s }
  | _, _ =>
    { s with allItems := s.allItems ++ [it], count := sealCount s }

/-- `resetRequest` plus the separate clearing of the pending description
that follows every call of it. -/
def mkResetState (s : PState) : PState :=
  { s with
    item := emptyItem, req := {}, headers := [], body := {},
    url := {}, query := [], data := [], startedJSON := false,
    currentRequestName := [], requestVariables := [],
    inRequestScript := false, currentRequestDescription := [] }

/-- One iteration of the scanning loop on the already-trimmed line,
following the cases of the Go switch in order. -/
def stepT (s : PState) (line : Str) : PState :=
  if line.isEmpty then s
  else
    match groupMatch line with
    | some m =>
      let groups' := match s.currentGroup with
        | some g => if 0 < g.gitems.length then s.groups ++ [g] else s.groups
        | none => s.groups
      { s with
        groups := groups',
        currentGroup := some { gname := wtrim m, gitems := [] },
        hasGroupSeparators := true }
    | none =>
    match nameMatch line with
    | some m => { s with currentRequestName := m }
    | none =>
    match descMatch line with
    | some m => { s with currentRequestDescription := m }
    | none =>
    match localVarMatch line with
    | some kv =>
      { s with localVariables := upsert s.localVariables kv.1 (wtrim kv.2) }
    | none =>
    if hasPrefixS (str "<") line && containsSub [lb, '%'] line then
      if containsSub ['%', rb] line then
        { s with requestVariables := applySetter line s.requestVariables }
      else
        { s with
          inRequestScript := true,
          requestVariables := applySetter line s.requestVariables }
    else if containsSub ['%', rb] line && s.inRequestScript then
      { s with
        inRequestScript := false,
        requestVariables := applySetter line s.requestVariables }
    else if s.inRequestScript then
      { s with requestVariables := applySetter line s.requestVariables }
    else if hasPrefixS (str "###") line then
      mkResetState
        (if !s.req.method.isEmpty && !s.url.raw.isEmpty then appendSealed s else s)
    else if hasPrefixS (str "#") line then s
    else if isMethodLine line then
      match fields line with
      | m :: u :: _ =>
        { s with
          req := { s.req with method := m },
          url := parseURL u { s.url with raw := u }
                   s.localVariables s.requestVariables,
          query := s.query ++ parseQueryParams u }
      | _ => s
    else if hasPrefixS [lb] line then
      let b1 : Body := { s.body with mode := str "raw", optionsLang := some (str "json") }
      if hasSuffixS [rb] line then
        { s with body := { b1 with raw := wtrim line }, startedJSON := false }
      else
        { s with body := b1, startedJSON := true, data := s.data ++ line ++ [nl] }
    else if containsCh ':' line && !s.startedJSON then
      match splitFirst ':' line with
      | some kv =>
        { s with headers := s.headers ++
            [{ key := wtrim kv.1, value := wtrim kv.2, htype := str "text" }] }
      | none => s
    else if containsCh ':' line && s.startedJSON then
      { s with data := s.data ++ line ++ [nl] }
    else if hasSuffixS [rb] line && s.startedJSON then
      { s with
        data := s.data ++ line,
        body := { s.body with raw := wtrim (s.data ++ line) },
        startedJSON := false }
    else if s.startedJSON then
      { s with data := s.data ++ line ++ [nl] }
    else s

/-- One iteration of the scanning loop on a raw line (the loop trims
every line before the switch). -/
def step (s : PState) (raw : Str) : PState := stepT s (wtrim raw)

/-- The scanning loop from an arbitrary state. -/
def runLines (s : PState) (lines : List Str) : PState := lines.foldl step s

/-- The initial loop state. -/
def initState : PState := {}

/-- The scanning loop over the whole input. -/
def processLines (lines : List Str) : PState := runLines initState lines

/-- The end-of-input sealing: the last request is sealed exactly under
the condition of the separator case. -/
def finalizeSeal (s : PState) : PState :=
  if !s.req.method.isEmpty && !s.url.raw.isEmpty then appendSealed s else s

/-- The group list after the trailing flush of a non-empty open group. -/
def finalGroups (s : PState) : List RGroup :=
  match s.currentGroup with
  | some g => if 0 < g.gitems.length then s.groups ++ [g] else s.groups
  | none => s.groups

/-- The valid (non-empty-method) requests of a group. -/
def validOf (g : RGroup) : List Item :=
  g.gitems.filter (fun it => !it.request.method.isEmpty)

/-- The output item list: one folder per group that has at least one
valid request when grouping was used, else the flat filtered request
list. -/
def assembleItems (s : PState) : List Item :=
  let gs := finalGroups s
  if s.hasGroupSeparators && 0 < gs.length then
    gs.filterMap fun g =>
      if 0 < g.gitems.length then
        let valid := validOf g
        if 0 < valid.length then
          some { name := g.gname, description := [], item := valid, request := {} }
        else none
      else none
  else
    s.allItems.filter (fun it => !it.request.method.isEmpty)

/-- The item list of the whole conversion. -/
def convertItems (lines : List Str) : List Item :=
  assembleItems (finalizeSeal (processLines lines))

/-- The default environment name. -/
def envDev : Str := str "dev"

/-- Value resolution for a detected variable: local table first, then the
active environment of the loaded environment file, else empty. -/
def resolveDetected (locals : List (Str × Str)) (env : Option Environment)
    (v : Str) : Str :=
  match lookupA locals v with
  | some lv => lv
  | none =>
    match env with
    | some e =>
      match lookupA e envDev with
      | some m =>
        match lookupA m v with
        | some x => x
        | none => []
      | none => []
    | none => []

/-- The detected-variable part of the collection variable list: one entry
per first occurrence of a detected name, in detection order. -/
def detectedVarList (locals : List (Str × Str)) (env : Option Environment) :
    List Str → List Str → List Variable
  | [], _ => []
  | v :: rest, seen =>
    if seen.contains v then detectedVarList locals env rest seen
    else { key := v, value := resolveDetected locals env v, vtype := str "string" } ::
      detectedVarList locals env rest (v :: seen)

/-- The leftover part of the collection variable list: the local-variable
entries whose names were never detected in the text, in the order the map
range happens to produce. -/
def leftoverVars (allVars : List Str) (locals : List (Str × Str)) : List Variable :=
  (locals.filter fun kv => !allVars.contains kv.1).map
    fun kv => { key := kv.1, value := kv.2, vtype := str "string" }

/-- The whole conversion.  `envResult` is the outcome of loading the
environment file (`none` when missing or invalid), `mapRange` is the
iteration order the Go runtime chooses when ranging over the
local-variable map, and `today` the formatted timestamp. -/
def convertHTTPToPostman (lines : List Str) (envResult : Option Environment)
    (mapRange : List (Str × Str) → List (Str × Str)) (today : Str) :
    Except (List Str) Collection :=
  let allVariables := scanVars (linesText lines)
  if !allVariables.isEmpty && envResult.isNone then
    Except.error allVariables
  else
    let s := finalizeSeal (processLines lines)
    Except.ok
      { info := { name := str "jb-export-" ++ today, schema := schemaURL },
        items := assembleItems s,
        variable' := detectedVarList s.localVariables envResult allVariables [] ++
          leftoverVars allVariables (mapRange s.localVariables) }

/-- The item list of a conversion result (empty for the error case, where
no document is produced). -/
def itemsOfResult (r : Except (List Str) Collection) : List Item :=
  match r with
  | Except.ok c => c.items
  | Except.error _ => []

/-- A non-empty list is not `isEmpty`. -/
theorem isEmpty_false {α : Type} {l : List α} (h : l ≠ []) : l.isEmpty = false := by
  cases l with
  | nil => exact absurd rfl h
  | cons a t => rfl

/-- `splitOnP` never returns the empty list. -/
theorem splitOnP_ne_nil (p : Char → Bool) (l : Str) : splitOnP p l ≠ [] := by
  induction l with
  | nil => simp [splitOnP]
  | cons c t ih =>
    simp only [splitOnP]
    split
    · simp
    · split <;> simp

/-- On a list without separator characters `splitOnP` yields one field. -/
theorem splitOnP_all (p : Char → Bool) (xs : Str)
    (hxs : ∀ a ∈ xs, p a = false) : splitOnP p xs = [xs] := by
  induction xs with
  | nil => rfl
  | cons c t ih =>
    have hc : p c = false := hxs c (List.mem_cons_self c t)
    have ht : splitOnP p t = [t] := ih fun a ha => hxs a (List.mem_cons_of_mem c ha)
    simp [splitOnP, hc, ht]

/-- Splitting at the first separator when the prefix is separator-free. -/
theorem splitOnP_sep (p : Char → Bool) (c : Char) (xs ys : Str)
    (hxs : ∀ a ∈ xs, p a = false) (hc : p c = true) :
    splitOnP p (xs ++ c :: ys) = xs :: splitOnP p ys := by
  induction xs with
  | nil => simp [splitOnP, hc]
  | cons x t ih =>
    have hx : p x = false := hxs x (List.mem_cons_self x t)
    have ht := ih fun a ha => hxs a (List.mem_cons_of_mem x ha)
    simp only [List.cons_append, splitOnP, hx, Bool.false_eq_true, if_false,
      List.append_eq, ht]

/-- `containsCh` is membership. -/
theorem containsCh_iff_mem (c : Char) (l : Str) : containsCh c l = true ↔ c ∈ l := by
  induction l with
  | nil => simp [containsCh]
  | cons x t ih =>
    simp only [containsCh, Bool.or_eq_true, decide_eq_true_eq, ih, List.mem_cons]
    constructor
    · rintro (h | h)
      · exact Or.inl h.symm
      · exact Or.inr h
    · rintro (h | h)
      · exact Or.inl h.symm
      · exact Or.inr h

/-- Absence form of `containsCh_iff_mem`. -/
theorem containsCh_false_iff (c : Char) (l : Str) :
    containsCh c l = false ↔ c ∉ l := by
  rw [← containsCh_iff_mem c l]
  cases containsCh c l <;> simp

/-- Whenever a line contains the separator character, `splitFirst` finds
it. -/
theorem splitFirst_isSome (c : Char) (l : Str) (h : containsCh c l = true) :
    ∃ a b, splitFirst c l = some (a, b) := by
  induction l with
  | nil => simp [containsCh] at h
  | cons x t ih =>
    by_cases hx : x = c
    · exact ⟨[], t, by simp [splitFirst, hx]⟩
    · have hxc : (decide (x = c)) = false := by simp [hx]
      simp only [containsCh, hxc, Bool.false_or] at h
      obtain ⟨a, b, hab⟩ := ih h
      exact ⟨x :: a, b, by simp [splitFirst, hx, hab]⟩

/-- `fields` of a verb, one space and a space-free remainder. -/
theorem fields_two (v u : Str) (hv : ∀ a ∈ v, isSp a = false) (hvne : v ≠ [])
    (hu : ∀ a ∈ u, isSp a = false) (hune : u ≠ []) :
    fields (v ++ ' ' :: u) = [v, u] := by
  unfold fields
  rw [splitOnP_sep isSp ' ' v u hv (by decide), splitOnP_all isSp u hu]
  simp [isEmpty_false hvne, isEmpty_false hune]

/-- A line that does not start with a hash does not start with the
separator marker either. -/
theorem prefix_hash3 (l : Str) (h : hasPrefixS (str "#") l = false) :
    hasPrefixS (str "###") l = false := by
  cases l with
  | nil => rfl
  | cons x t =>
    have : (('#' : Char) == x) = false := by
      by_contra hx
      simp only [Bool.not_eq_false, beq_iff_eq] at hx
      simp [hasPrefixS, str, List.isPrefixOf, ← hx] at h
    show (('#' : Char) == x && _) = false
    simp [this]

/-- Rendering of a key-value list as a query string, ampersand-joined. -/
def joinAmp : List (Str × Str) → Str
  | [] => []
  | [p] => p.1 ++ '=' :: p.2
  | p :: q :: rest => p.1 ++ '=' :: p.2 ++ '&' :: joinAmp (q :: rest)

/-- A well-formed query pair: key and value free of the three structural
characters of query strings and already trimmed. -/
def validPair (p : Str × Str) : Prop :=
  (∀ a ∈ p.1, a ≠ '&' ∧ a ≠ '=' ∧ a ≠ '?') ∧
  (∀ a ∈ p.2, a ≠ '&' ∧ a ≠ '=' ∧ a ≠ '?') ∧
  wtrim p.1 = p.1 ∧ wtrim p.2 = p.2

instance : DecidablePred validPair := fun p => by
  unfold validPair
  infer_instance

/-- Every character of a rendered query string is a separator or a
character of one of the pairs. -/
theorem mem_joinAmp (ps : List (Str × Str)) (a : Char) (ha : a ∈ joinAmp ps) :
    a = '=' ∨ a = '&' ∨ ∃ p ∈ ps, a ∈ p.1 ∨ a ∈ p.2 := by
  induction ps with
  | nil => simp [joinAmp] at ha
  | cons p rest ih =>
    cases rest with
    | nil =>
      simp only [joinAmp, List.mem_append, List.mem_cons] at ha
      rcases ha with h | h | h
      · exact Or.inr (Or.inr ⟨p, List.mem_cons_self p [], Or.inl h⟩)
      · exact Or.inl h
      · exact Or.inr (Or.inr ⟨p, List.mem_cons_self p [], Or.inr h⟩)
    | cons q rest' =>
      simp only [joinAmp, List.mem_append, List.mem_cons] at ha
      rcases ha with (h | h | h) | h | h
      · exact Or.inr (Or.inr ⟨p, List.mem_cons_self p _, Or.inl h⟩)
      · exact Or.inl h
      · exact Or.inr (Or.inr ⟨p, List.mem_cons_self p _, Or.inr h⟩)
      · exact Or.inr (Or.inl h)
      · rcases ih h with h1 | h1 | ⟨r, hr, h1⟩
        · exact Or.inl h1
        · exact Or.inr (Or.inl h1)
        · exact Or.inr (Or.inr ⟨r, List.mem_cons_of_mem p hr, h1⟩)

/-- A well-formed pair parses back to itself. -/
theorem parseQueryPair_wf (k v : Str)
    (hk : ∀ a ∈ k, a ≠ '&' ∧ a ≠ '=' ∧ a ≠ '?')
    (hv : ∀ a ∈ v, a ≠ '&' ∧ a ≠ '=' ∧ a ≠ '?')
    (htk : wtrim k = k) (htv : wtrim v = v) :
    parseQueryPair (k ++ '=' :: v) = some { key := k, value := v } := by
  have hcont : containsCh '=' (k ++ '=' :: v) = true :=
    (containsCh_iff_mem _ _).mpr (List.mem_append_right k (List.mem_cons_self _ _))
  have hsplit : splitOnCh '=' (k ++ '=' :: v) = k :: [v] := by
    unfold splitOnCh
    rw [splitOnP_sep _ '=' k _ (fun a ha => by simp [(hk a ha).2.1]) (by simp),
      splitOnP_all _ v (fun a ha => by simp [(hv a ha).2.1])]
  simp [parseQueryPair, hcont, hsplit, htk, htv]

/-- A rendered query string of well-formed pairs parses back to the pair
list, in order. -/
theorem parseQuery_join (ps : List (Str × Str)) (h : ∀ p ∈ ps, validPair p) :
    (splitOnCh '&' (joinAmp ps)).filterMap parseQueryPair =
      ps.map (fun p => { key := p.1, value := p.2 }) := by
  induction ps with
  | nil => simp [joinAmp, splitOnCh, splitOnP, parseQueryPair, containsCh]
  | cons p rest ih =>
    obtain ⟨hk, hv, htk, htv⟩ := h p (List.mem_cons_self p rest)
    cases rest with
    | nil =>
      have hall : ∀ a ∈ joinAmp [p], (decide (a = '&')) = false := by
        intro a ha
        rcases mem_joinAmp [p] a ha with h1 | h1 | ⟨r, hr, h1⟩
        · simp [h1]
        · exfalso
          subst h1
          simp only [joinAmp, List.mem_append, List.mem_cons] at ha
          rcases ha with h2 | h2 | h2
          · exact (hk _ h2).1 rfl
          · exact absurd h2 (by decide)
          · exact (hv _ h2).1 rfl
        · simp only [List.mem_singleton] at hr
          subst hr
          rcases h1 with h1 | h1
          · simp [(hk _ h1).1]
          · simp [(hv _ h1).1]
      unfold splitOnCh
      rw [show joinAmp [p] = p.1 ++ '=' :: p.2 from rfl] at hall ⊢
      rw [splitOnP_all _ _ hall]
      simp [parseQueryPair_wf p.1 p.2 hk hv htk htv]
    | cons q rest' =>
      have hfst : ∀ a ∈ p.1 ++ '=' :: p.2, (decide (a = '&')) = false := by
        intro a ha
        simp only [List.mem_append, List.mem_cons] at ha
        rcases ha with h1 | h1 | h1
        · simp [(hk _ h1).1]
        · subst h1
          decide
        · simp [(hv _ h1).1]
      have hrest := ih fun r hr => h r (List.mem_cons_of_mem p hr)
      have hjoin : joinAmp (p :: q :: rest') =
          (p.1 ++ '=' :: p.2) ++ '&' :: joinAmp (q :: rest') := by
        simp [joinAmp]
      unfold splitOnCh at hrest ⊢
      rw [hjoin, splitOnP_sep _ '&' _ _ hfst (by simp)]
      simp only [List.filterMap_cons, parseQueryPair_wf p.1 p.2 hk hv htk htv, hrest]
      simp

/-- Claim C5 (amended): query parameters are parsed left to right by
splitting the query string (the text between the first and second
question mark of the URL) on ampersands; a pair without an equals sign is
skipped; a pair with one is split on every equals sign and contributes
the field before the first equals sign as key and the field between the
first and second as value (so a pair `a=b=c` yields key `a` and value
`b`, not `b=c`), both trimmed; the query string
`page=1&limit=10&sort=name` yields `[(page,1),(limit,10),(sort,name)]`
in that order. -/
theorem c5_query_parsing :
    (∀ (base : Str) (ps : List (Str × Str)),
      containsCh '?' base = false → (∀ p ∈ ps, validPair p) →
      parseQueryParams (base ++ '?' :: joinAmp ps) =
        ps.map (fun p => { key := p.1, value := p.2 })) ∧
    parseQueryParams (str "https://api.example.com/users?page=1&limit=10&sort=name") =
      [{ key := str "page", value := str "1" }, { key := str "limit", value := str "10" },
       { key := str "sort", value := str "name" }] ∧
    parseQueryParams (str "http://h/p?a&b=2") = [{ key := str "b", value := str "2" }] ∧
    parseQueryParams (str "http://h/p?a=b=c") = [{ key := str "a", value := str "b" }] := by
  refine ⟨?_, by decide, by decide, by decide⟩
  intro base ps hb h
  have hbase : ∀ a ∈ base, (decide (a = '?')) = false := by
    intro a ha
    have := (containsCh_false_iff '?' base).mp hb
    by_contra hx
    simp only [decide_eq_false_iff_not, not_not] at hx
    exact this (hx ▸ ha)
  have hqs : ∀ a ∈ joinAmp ps, (decide (a = '?')) = false := by
    intro a ha
    rcases mem_joinAmp ps a ha with h1 | h1 | ⟨r, hr, h1⟩
    · simp [h1]
    · simp [h1]
    · obtain ⟨hk, hv, _, _⟩ := h r hr
      rcases h1 with h1 | h1
      · simp [(hk _ h1).2.2]
      · simp [(hv _ h1).2.2]
  have hcont : containsCh '?' (base ++ '?' :: joinAmp ps) = true :=
    (containsCh_iff_mem _ _).mpr (List.mem_append_right base (List.mem_cons_self _ _))
  unfold parseQueryParams
  rw [hcont]
  unfold splitOnCh
  rw [splitOnP_sep _ '?' _ _ hbase (by simp), splitOnP_all _ _ hqs]
  exact parseQuery_join ps h

/-- Witness for C5: the amended statement applied to a concrete base URL
and pair list. -/
theorem c5_query_parsing_witness :
    parseQueryParams (str "http://h/p" ++ '?' :: joinAmp
        [(str "page", str "1"), (str "limit", str "10")]) =
      [{ key := str "page", value := str "1" }, { key := str "limit", value := str "10" }] :=
  c5_query_parsing.1 (str "http://h/p")
    [(str "page", str "1"), (str "limit", str "10")] (by decide) (by decide)

/-- Counterexample for C5 as stated: the claim says a pair `a=b=c` yields
value `b=c` (split on the first equals sign only), but the program takes
the field between the first and second equals sign, yielding value `b`. -/
theorem c5_counterexample :
    parseQueryParams (str "http://h/p?a=b=c") = [{ key := str "a", value := str "b" }] ∧
    ¬ ([{ key := str "a", value := str "b" }] =
       [({ key := str "a", value := str "b=c" } : QueryParam)]) := by
  constructor
  · decide
  · decide

/-- Claim C2: the conversion fails (and produces no document) exactly
when the input text contains at least one variable reference and the
environment mapping could not be loaded; the error lists exactly the
detected variable names; with no variable reference a missing or invalid
environment file is tolerated and a document is produced. -/
theorem c2_env_error (lines : List Str) (envResult : Option Environment)
    (mapRange : List (Str × Str) → List (Str × Str)) (today : Str) :
    ((∃ e, convertHTTPToPostman lines envResult mapRange today = Except.error e) ↔
      (scanVars (linesText lines) ≠ [] ∧ envResult = none)) ∧
    (∀ e, convertHTTPToPostman lines envResult mapRange today = Except.error e →
      e = scanVars (linesText lines) ∧ e ≠ []) ∧
    ((scanVars (linesText lines) = [] ∨ envResult ≠ none) →
      ∃ c, convertHTTPToPostman lines envResult mapRange today = Except.ok c) := by
  by_cases hv : scanVars (linesText lines) = []
  · have hcond : (!(scanVars (linesText lines)).isEmpty && envResult.isNone) = false := by
      rw [hv]
      rfl
    simp only [convertHTTPToPostman, hcond, Bool.false_eq_true, if_false]
    refine ⟨?_, ?_, fun _ => ⟨_, rfl⟩⟩
    · constructor
      · rintro ⟨e, he⟩
        exact absurd he (by simp)
      · rintro ⟨hne, _⟩
        exact absurd hv hne
    · intro e he
      exact absurd he (by simp)
  · cases envResult with
    | none =>
      have hcond : (!(scanVars (linesText lines)).isEmpty &&
          Option.isNone (none : Option Environment)) = true := by
        rw [isEmpty_false hv]
        rfl
      simp only [convertHTTPToPostman, hcond, if_true]
      refine ⟨⟨fun _ => ⟨hv, by simp⟩, fun _ => ⟨_, rfl⟩⟩, ?_, ?_⟩
      · intro e he
        have he2 : scanVars (linesText lines) = e := by
          injection he
        exact ⟨he2.symm, he2 ▸ hv⟩
      · rintro (h | h)
        · exact absurd h hv
        · exact absurd rfl h
    | some env =>
      have hcond : (!(scanVars (linesText lines)).isEmpty &&
          Option.isNone (some env)) = false := by
        simp
      simp only [convertHTTPToPostman, hcond, Bool.false_eq_true, if_false]
      refine ⟨?_, ?_, fun _ => ⟨_, rfl⟩⟩
      · constructor
        · rintro ⟨e, he⟩
          exact absurd he (by simp)
        · rintro ⟨_, hnone⟩
          exact absurd hnone (by simp)
      · intro e he
        exact absurd he (by simp)

/-- Witness for C2: a file referencing one variable with no loadable
environment aborts with that variable named, and the same file with an
(empty) environment converts. -/
theorem c2_env_error_witness :
    (∃ e, convertHTTPToPostman [str "GET https://x.y/" ++ [lb, lb] ++ str "token" ++ [rb, rb]]
        none (fun t => t) (str "T") = Except.error e) ∧
    (∃ c, convertHTTPToPostman [str "GET https://x.y/" ++ [lb, lb] ++ str "token" ++ [rb, rb]]
        (some []) (fun t => t) (str "T") = Except.ok c) :=
  ⟨(c2_env_error _ none (fun t => t) (str "T")).1.mpr ⟨by decide, rfl⟩,
   (c2_env_error _ (some []) (fun t => t) (str "T")).2.2 (Or.inr (by simp))⟩

/-- Claim C6 (amended): up to the timestamp-derived collection name the
conversion is deterministic in everything except the relative order of
the leftover local-variable entries (those never detected in the text),
which come from ranging over a Go map: two runs whose map iteration
orders are permutations of the table agree on the error case, the
schema, the item list and the detected-variable prefix of the variable
list, and their leftover segments are permutations of each other. -/
theorem c6_determinism (lines : List Str) (envResult : Option Environment)
    (iter1 iter2 : List (Str × Str) → List (Str × Str)) (ts1 ts2 : Str)
    (h1 : ∀ t, List.Perm (iter1 t) t) (h2 : ∀ t, List.Perm (iter2 t) t) :
    (∀ e, convertHTTPToPostman lines envResult iter1 ts1 = Except.error e ↔
          convertHTTPToPostman lines envResult iter2 ts2 = Except.error e) ∧
    (∀ c1 c2, convertHTTPToPostman lines envResult iter1 ts1 = Except.ok c1 →
      convertHTTPToPostman lines envResult iter2 ts2 = Except.ok c2 →
      c1.info.schema = c2.info.schema ∧ c1.items = c2.items ∧
      ∃ pre l1 l2, c1.variable' = pre ++ l1 ∧ c2.variable' = pre ++ l2 ∧
        List.Perm l1 l2) := by
  by_cases hcond : (!(scanVars (linesText lines)).isEmpty && envResult.isNone) = true
  · have herr : ∀ (it : List (Str × Str) → List (Str × Str)) (ts : Str),
        convertHTTPToPostman lines envResult it ts =
          Except.error (scanVars (linesText lines)) := by
      intro it ts
      simp only [convertHTTPToPostman, hcond, if_true]
    constructor
    · intro e
      rw [herr iter1 ts1, herr iter2 ts2]
    · intro c1 c2 hc1 hc2
      rw [herr iter1 ts1] at hc1
      exact absurd hc1 (by simp)
  · have hcond' : (!(scanVars (linesText lines)).isEmpty && envResult.isNone) = false := by
      cases h : (!(scanVars (linesText lines)).isEmpty && envResult.isNone) with
      | false => rfl
      | true => exact absurd h hcond
    have hok : ∀ (it : List (Str × Str) → List (Str × Str)) (ts : Str),
        convertHTTPToPostman lines envResult it ts =
          Except.ok
            { info := { name := str "jb-export-" ++ ts, schema := schemaURL },
              items := assembleItems (finalizeSeal (processLines lines)),
              variable' := detectedVarList
                  (finalizeSeal (processLines lines)).localVariables envResult
                  (scanVars (linesText lines)) [] ++
                leftoverVars (scanVars (linesText lines))
                  (it (finalizeSeal (processLines lines)).localVariables) } := by
      intro it ts
      simp only [convertHTTPToPostman, hcond', Bool.false_eq_true, if_false]
    constructor
    · intro e
      rw [hok iter1 ts1, hok iter2 ts2]
      simp
    · intro c1 c2 hc1 hc2
      rw [hok iter1 ts1] at hc1
      rw [hok iter2 ts2] at hc2
      have e1 := (Except.ok.inj hc1).symm
      have e2 := (Except.ok.inj hc2).symm
      subst e1
      subst e2
      refine ⟨rfl, rfl,
        detectedVarList (finalizeSeal (processLines lines)).localVariables envResult
          (scanVars (linesText lines)) [],
        leftoverVars (scanVars (linesText lines))
          (iter1 (finalizeSeal (processLines lines)).localVariables),
        leftoverVars (scanVars (linesText lines))
          (iter2 (finalizeSeal (processLines lines)).localVariables),
        rfl, rfl, ?_⟩
      unfold leftoverVars
      exact List.Perm.map _ (List.Perm.filter _ ((h1 _).trans (h2 _).symm))

/-- Witness for C6 (amended): the variable lists of the two concrete runs
below decompose into the same detected prefix with permuted leftovers. -/
theorem c6_determinism_witness :
    ∃ pre l1 l2,
      [({ key := str "a", value := str "1", vtype := str "string" } : Variable),
       { key := str "b", value := str "2", vtype := str "string" }] = pre ++ l1 ∧
      [({ key := str "b", value := str "2", vtype := str "string" } : Variable),
       { key := str "a", value := str "1", vtype := str "string" }] = pre ++ l2 ∧
      List.Perm l1 l2 := by
  have h := (c6_determinism [str "@a = 1", str "@b = 2"] none
      (fun t => t) List.reverse (str "T") (str "T")
      (fun t => List.Perm.refl t) (fun t => List.reverse_perm t)).2
      _ _ rfl rfl
  exact h.2.2

/-- Counterexample for C6 as stated: converting the same input in two
runs whose (legitimate, permutation-of-the-table) map iteration orders
differ yields different collection-variable orders, so the order of the
leftover local-variable entries is not the same in both runs. -/
theorem c6_counterexample :
    (convertHTTPToPostman [str "@a = 1", str "@b = 2"] none (fun t => t)
        (str "T")).toOption.map Collection.variable' =
      some [{ key := str "a", value := str "1", vtype := str "string" },
            { key := str "b", value := str "2", vtype := str "string" }] ∧
    (convertHTTPToPostman [str "@a = 1", str "@b = 2"] none List.reverse
        (str "T")).toOption.map Collection.variable' =
      some [{ key := str "b", value := str "2", vtype := str "string" },
            { key := str "a", value := str "1", vtype := str "string" }] ∧
    List.Perm (List.reverse [(str "a", str "1"), (str "b", str "2")])
      [(str "a", str "1"), (str "b", str "2")] ∧
    ¬ ([{ key := str "a", value := str "1", vtype := str "string" },
        { key := str "b", value := str "2", vtype := str "string" }] =
       ([{ key := str "b", value := str "2", vtype := str "string" },
         { key := str "a", value := str "1", vtype := str "string" }] : List Variable)) := by
  refine ⟨by decide, by decide, by decide, by decide⟩

/-- Claim C1 (code evaluation at the failing input): the scanner trims
every line before processing, so a multi-line JSON body loses the leading
indentation of every interior line.  On the body of the repository's own
test `TestPOSTRequestWithJSON` (two interior lines indented by two
spaces) the sealed raw body equals the indentation-stripped text and
differs from the indentation-preserving text that the test (and the
specification) expect. -/
theorem c1_body_indentation :
    (convertItems
        [str "POST https://api.example.com/users",
         str "Content-Type: application/json",
         str "",
         [lb],
         str "  \"name\": \"John Doe\",",
         str "  \"email\": \"john@example.com\"",
         [rb],
         str "",
         str "###"]).map (fun it => it.request.body.raw) =
      [[lb] ++ nl :: str "\"name\": \"John Doe\"," ++ nl :: str "\"email\": \"john@example.com\"" ++ [nl, rb]] ∧
    ¬ ([lb] ++ nl :: str "\"name\": \"John Doe\"," ++ nl :: str "\"email\": \"john@example.com\"" ++ [nl, rb] =
       [lb] ++ nl :: str "  \"name\": \"John Doe\"," ++ nl :: str "  \"email\": \"john@example.com\"" ++ [nl, rb]) := by
  refine ⟨?_, by decide⟩
  rfl

/-- A separator line seals (under the validity condition shared with the
end-of-input handler) and resets, except during a multi-line script
block, where it is merely scanned (without effect, as it cannot contain
the setter pattern). -/
theorem stepT_sep (s : PState) :
    stepT s (str "###") =
      if s.inRequestScript then s else mkResetState (finalizeSeal s) := by
  cases h : s.inRequestScript with
  | true =>
    rw [if_pos rfl]
    simp only [stepT, show (str "###").isEmpty = false from rfl,
      show groupMatch (str "###") = none from rfl,
      show nameMatch (str "###") = none from rfl,
      show descMatch (str "###") = none from rfl,
      show localVarMatch (str "###") = none from rfl,
      show hasPrefixS (str "<") (str "###") = false from rfl,
      show containsSub ['%', rb] (str "###") = false from rfl,
      Bool.false_and, Bool.false_eq_true, if_false, h, if_true,
      show ∀ rv, applySetter (str "###") rv = rv from fun rv => rfl]
    rw [← h]
  | false =>
    rw [if_neg Bool.false_ne_true]
    simp only [stepT, show (str "###").isEmpty = false from rfl,
      show groupMatch (str "###") = none from rfl,
      show nameMatch (str "###") = none from rfl,
      show descMatch (str "###") = none from rfl,
      show localVarMatch (str "###") = none from rfl,
      show hasPrefixS (str "<") (str "###") = false from rfl,
      show containsSub ['%', rb] (str "###") = false from rfl,
      Bool.false_and, Bool.false_eq_true, if_false, h,
      show hasPrefixS (str "###") (str "###") = true from rfl, if_true]
    rfl

/-- Sealing at end of input is the identity on a freshly reset state. -/
theorem finalizeSeal_reset (t : PState) :
    finalizeSeal (mkResetState t) = mkResetState t := rfl

/-- The assembled item list only reads the group fields and the flat item
list, all untouched by a reset. -/
theorem assembleItems_reset (t : PState) :
    assembleItems (mkResetState t) = assembleItems t := rfl

/-- Claim C4: a request left unfinished at end of input is sealed exactly
as a separator line would seal it — appending a trailing separator line
to any input leaves the output item list unchanged — and the end-of-input
handler appends the sealed item (to the flat list, or to the open group
when grouping is active) exactly when method and raw URL are non-empty,
doing nothing otherwise. -/
theorem c4_eof_seal :
    (∀ lines : List Str,
      convertItems (lines ++ [str "###"]) = convertItems lines) ∧
    (∀ s : PState, (s.hasGroupSeparators = false ∨ s.currentGroup = none) →
      s.req.method ≠ [] → s.url.raw ≠ [] →
      (finalizeSeal s).allItems = s.allItems ++ [sealItem s]) ∧
    (∀ s : PState, ∀ g : RGroup, s.hasGroupSeparators = true →
      s.currentGroup = some g → s.req.method ≠ [] → s.url.raw ≠ [] →
      (finalizeSeal s).currentGroup =
        some { g with gitems := g.gitems ++ [sealItem s] }) ∧
    (∀ s : PState, (s.req.method = [] ∨ s.url.raw = []) → finalizeSeal s = s) := by
  refine ⟨?_, ?_, ?_, ?_⟩
  · intro lines
    unfold convertItems processLines runLines
    rw [List.foldl_append]
    simp only [List.foldl_cons, List.foldl_nil]
    rw [show step (List.foldl step initState lines) (str "###") =
        stepT (List.foldl step initState lines) (str "###") from rfl,
      stepT_sep]
    cases h : (List.foldl step initState lines).inRequestScript with
    | true => rw [if_pos rfl]
    | false =>
      rw [if_neg Bool.false_ne_true, finalizeSeal_reset, assembleItems_reset]
  · intro s hflat hm hr
    unfold finalizeSeal
    rw [isEmpty_false hm, isEmpty_false hr]
    simp only [Bool.not_false, Bool.and_self, if_true]
    unfold appendSealed
    rcases hflat with h | h
    · rw [h]
    · rw [h]
      cases s.hasGroupSeparators <;> rfl
  · intro s g hgs hcg hm hr
    unfold finalizeSeal
    rw [isEmpty_false hm, isEmpty_false hr]
    simp only [Bool.not_false, Bool.and_self, if_true]
    unfold appendSealed
    rw [hgs, hcg]
  · intro s h
    unfold finalizeSeal
    rcases h with h | h
    · rw [h]
      rfl
    · rw [h]
      simp

/-- Witness for C4: the end-of-input handler appends the sealed request
of a one-line input with no trailing separator, and the appended-separator
equation holds on that input. -/
theorem c4_eof_seal_witness :
    (finalizeSeal (processLines [str "GET http://a.b/c"])).allItems =
      (processLines [str "GET http://a.b/c"]).allItems ++
        [sealItem (processLines [str "GET http://a.b/c"])] ∧
    convertItems ([str "GET http://a.b/c"] ++ [str "###"]) =
      convertItems [str "GET http://a.b/c"] :=
  ⟨c4_eof_seal.2.1 (processLines [str "GET http://a.b/c"])
      (Or.inl (by decide)) (by decide) (by decide),
   c4_eof_seal.1 [str "GET http://a.b/c"]⟩

/-- A list of items all of which are request items (no nested items). -/
def itemsFlat (l : List Item) : Prop := ∀ it ∈ l, it.item = []

/-- Scanning invariant for C8: the item accumulator and every item in
the flat output list carry no nested items (sealed items never do). -/
def stInv (s : PState) : Prop :=
  s.item.item = [] ∧ itemsFlat s.allItems

/-- A sealed item inherits the (empty) nested-item list of the
accumulator. -/
theorem sealItem_item (s : PState) (h : s.item.item = []) :
    (sealItem s).item = [] := by
  unfold sealItem
  split <;> split <;> exact h

/-- `appendSealed` preserves the invariant. -/
theorem appendSealed_inv (s : PState) (h : stInv s) : stInv (appendSealed s) := by
  obtain ⟨h1, h2⟩ := h
  unfold appendSealed
  split
  · exact ⟨h1, h2⟩
  · refine ⟨h1, ?_⟩
    intro it hit
    rw [List.mem_append] at hit
    rcases hit with hit | hit
    · exact h2 it hit
    · rw [List.mem_singleton] at hit
      rw [hit]
      exact sealItem_item s h1

/-- `stepT` preserves the invariant (case analysis along the guards of
the switch; only the separator case touches the accumulator or the flat
list). -/
theorem stepT_inv (s : PState) (l : Str) (h : stInv s) : stInv (stepT s l) := by
  obtain ⟨h1, h2⟩ := h
  unfold stepT
  by_cases c0 : l.isEmpty = true
  · rw [if_pos c0]
    exact ⟨h1, h2⟩
  rw [if_neg c0]
  cases hg : groupMatch l with
  | some m => exact ⟨h1, h2⟩
  | none =>
  cases hn : nameMatch l with
  | some m => exact ⟨h1, h2⟩
  | none =>
  cases hd : descMatch l with
  | some m => exact ⟨h1, h2⟩
  | none =>
  cases hv : localVarMatch l with
  | some kv => exact ⟨h1, h2⟩
  | none =>
  dsimp only
  by_cases c1 : (hasPrefixS (str "<") l && containsSub [lb, '%'] l) = true
  · rw [if_pos c1]
    split
    · exact ⟨h1, h2⟩
    · exact ⟨h1, h2⟩
  rw [if_neg c1]
  by_cases c2 : (containsSub ['%', rb] l && s.inRequestScript) = true
  · rw [if_pos c2]
    exact ⟨h1, h2⟩
  rw [if_neg c2]
  by_cases c3 : s.inRequestScript = true
  · rw [if_pos c3]
    exact ⟨h1, h2⟩
  rw [if_neg c3]
  by_cases c4 : hasPrefixS (str "###") l = true
  · rw [if_pos c4]
    have hmid : stInv (if !s.req.method.isEmpty && !s.url.raw.isEmpty
        then appendSealed s else s) := by
      split
      · exact appendSealed_inv s ⟨h1, h2⟩
      · exact ⟨h1, h2⟩
    exact ⟨rfl, hmid.2⟩
  rw [if_neg c4]
  by_cases c5 : hasPrefixS (str "#") l = true
  · rw [if_pos c5]
    exact ⟨h1, h2⟩
  rw [if_neg c5]
  by_cases c6 : isMethodLine l = true
  · rw [if_pos c6]
    cases fields l with
    | nil => exact ⟨h1, h2⟩
    | cons m rest =>
      cases rest with
      | nil => exact ⟨h1, h2⟩
      | cons u rest2 => exact ⟨h1, h2⟩
  rw [if_neg c6]
  by_cases c7 : hasPrefixS [lb] l = true
  · rw [if_pos c7]
    split
    · exact ⟨h1, h2⟩
    · exact ⟨h1, h2⟩
  rw [if_neg c7]
  by_cases c8 : (containsCh ':' l && !s.startedJSON) = true
  · rw [if_pos c8]
    cases splitFirst ':' l with
    | some kv => exact ⟨h1, h2⟩
    | none => exact ⟨h1, h2⟩
  rw [if_neg c8]
  by_cases c9 : (containsCh ':' l && s.startedJSON) = true
  · rw [if_pos c9]
    exact ⟨h1, h2⟩
  rw [if_neg c9]
  by_cases c10 : (hasSuffixS [rb] l && s.startedJSON) = true
  · rw [if_pos c10]
    exact ⟨h1, h2⟩
  rw [if_neg c10]
  by_cases c11 : s.startedJSON = true
  · rw [if_pos c11]
    exact ⟨h1, h2⟩
  rw [if_neg c11]
  exact ⟨h1, h2⟩

/-- The scanning loop preserves the invariant. -/
theorem runLines_inv (ls : List Str) (s : PState) (h : stInv s) :
    stInv (runLines s ls) := by
  induction ls generalizing s with
  | nil => exact h
  | cons l rest ih => exact ih (stepT s (wtrim l)) (stepT_inv s (wtrim l) h)

/-- A non-`isEmpty` list is non-empty. -/
theorem ne_of_isEmpty_false {α : Type} {l : List α} (h : l.isEmpty = false) :
    l ≠ [] := by
  cases l with
  | nil => exact absurd h (by simp)
  | cons a t => exact fun hx => List.noConfusion hx

/-- The assembled item list of an invariant-satisfying state contains
only valid request items and valid folders. -/
theorem assembleItems_sound (s : PState) (h : stInv s) :
    ∀ it ∈ assembleItems s,
      (it.item = [] ∧ it.request.method ≠ []) ∨
      (it.item ≠ [] ∧ ∀ ch ∈ it.item, ch.request.method ≠ []) := by
  intro it hit
  unfold assembleItems at hit
  dsimp only at hit
  split at hit
  · rw [List.mem_filterMap] at hit
    obtain ⟨g, _, hsome⟩ := hit
    split at hsome
    · split at hsome
      · rw [Option.some.injEq] at hsome
        subst hsome
        right
        refine ⟨?_, ?_⟩
        · intro hx
          have hx' : validOf g = [] := hx
          rename_i hvalid
          rw [hx'] at hvalid
          exact absurd hvalid (by simp)
        · intro ch hch
          have hch' : ch ∈ validOf g := hch
          unfold validOf at hch'
          rw [List.mem_filter] at hch'
          exact ne_of_isEmpty_false (by simpa using hch'.2)
      · exact absurd hsome (by simp)
    · exact absurd hsome (by simp)
  · rw [List.mem_filter] at hit
    left
    exact ⟨h.2 it hit.1, ne_of_isEmpty_false (by simpa using hit.2)⟩

/-- Claim C8: the final document's item list never contains a request
item with an empty method: every item of the output is either a request
item (no nested items) with a non-empty method — the flat mode — or a
folder with at least one contained request, all of whose contained
requests have non-empty methods — the grouped mode. -/
theorem c8_no_empty_method (lines : List Str) (envResult : Option Environment)
    (mapRange : List (Str × Str) → List (Str × Str)) (today : Str) :
    ∀ it ∈ itemsOfResult (convertHTTPToPostman lines envResult mapRange today),
      (it.item = [] ∧ it.request.method ≠ []) ∨
      (it.item ≠ [] ∧ ∀ ch ∈ it.item, ch.request.method ≠ []) := by
  have hrun : stInv (processLines lines) :=
    runLines_inv lines initState ⟨rfl, fun it hit => absurd hit (List.not_mem_nil it)⟩
  have hinv : stInv (finalizeSeal (processLines lines)) := by
    unfold finalizeSeal
    split
    · exact appendSealed_inv _ hrun
    · exact hrun
  by_cases hcond : (!(scanVars (linesText lines)).isEmpty && envResult.isNone) = true
  · have herr : convertHTTPToPostman lines envResult mapRange today =
        Except.error (scanVars (linesText lines)) := by
      simp only [convertHTTPToPostman, hcond, if_true]
    rw [herr]
    intro it hit
    exact absurd (show it ∈ ([] : List Item) from hit) (List.not_mem_nil it)
  · have hcond' : (!(scanVars (linesText lines)).isEmpty && envResult.isNone) = false := by
      cases hx : (!(scanVars (linesText lines)).isEmpty && envResult.isNone) with
      | false => rfl
      | true => exact absurd hx hcond
    have hok : convertHTTPToPostman lines envResult mapRange today =
        Except.ok
          { info := { name := str "jb-export-" ++ today, schema := schemaURL },
            items := assembleItems (finalizeSeal (processLines lines)),
            variable' := detectedVarList
                (finalizeSeal (processLines lines)).localVariables envResult
                (scanVars (linesText lines)) [] ++
              leftoverVars (scanVars (linesText lines))
                (mapRange (finalizeSeal (processLines lines)).localVariables) } := by
      simp only [convertHTTPToPostman, hcond', Bool.false_eq_true, if_false]
    rw [hok]
    exact assembleItems_sound _ hinv

/-- The output item of the concrete witness input for C8. -/
def c8DemoItem : Item :=
  { name := str "request-1"
    description := []
    item := []
    request :=
      { method := str "GET"
        header := []
        body := {}
        url :=
          { raw := str "http://a.b/c"
            protocol := str "http"
            host := [str "a", str "b"]
            path := [str "c"]
            query := []
            variable' := [] } } }

/-- Witness for C8: the single output item of a concrete one-request
input satisfies the soundness disjunction. -/
theorem c8_no_empty_method_witness :
    (c8DemoItem.item = [] ∧ c8DemoItem.request.method ≠ []) ∨
    (c8DemoItem.item ≠ [] ∧ ∀ ch ∈ c8DemoItem.item, ch.request.method ≠ []) :=
  c8_no_empty_method [str "GET http://a.b/c", str "###"] none (fun t => t) (str "T")
    c8DemoItem (List.Mem.head _)

/-- Claim C3 (amended): a line containing a colon that matches none of
the earlier classifications (blank, group, name, description,
local-variable, script start — the line begins with the character LT and
contains the script-open token — script end, in-script, separator,
comment, method line, body start) is appended verbatim (the trimmed
line, plus a newline) to the accumulating body text when JSON-body mode
is active — leaving the header list untouched — and is parsed as a
header (split on the first colon, both sides trimmed) when JSON-body
mode is inactive — leaving the body text untouched. -/
theorem c3_colon_lines (s : PState) (l : Str)
    (hne : (wtrim l).isEmpty = false)
    (hg : groupMatch (wtrim l) = none) (hn : nameMatch (wtrim l) = none)
    (hd : descMatch (wtrim l) = none) (hl : localVarMatch (wtrim l) = none)
    (hlt : (hasPrefixS (str "<") (wtrim l) && containsSub [lb, '%'] (wtrim l)) = false)
    (hirs : s.inRequestScript = false)
    (hh : hasPrefixS (str "#") (wtrim l) = false)
    (hm : isMethodLine (wtrim l) = false)
    (hbr : hasPrefixS [lb] (wtrim l) = false)
    (hc : containsCh ':' (wtrim l) = true) :
    (s.startedJSON = true →
      step s l = { s with data := s.data ++ wtrim l ++ [nl] } ∧
      (step s l).headers = s.headers) ∧
    (s.startedJSON = false →
      ∃ k v, splitFirst ':' (wtrim l) = some (k, v) ∧
        step s l = { s with headers := s.headers ++
          [{ key := wtrim k, value := wtrim v, htype := str "text" }] } ∧
        (step s l).data = s.data) := by
  have hsep : hasPrefixS (str "###") (wtrim l) = false := prefix_hash3 _ hh
  have hred : step s l =
      if containsCh ':' (wtrim l) && !s.startedJSON then
        match splitFirst ':' (wtrim l) with
        | some kv => { s with headers := s.headers ++
            [{ key := wtrim kv.1, value := wtrim kv.2, htype := str "text" }] }
        | none => s
      else if containsCh ':' (wtrim l) && s.startedJSON then
        { s with data := s.data ++ wtrim l ++ [nl] }
      else if hasSuffixS [rb] (wtrim l) && s.startedJSON then
        { s with
          data := s.data ++ wtrim l,
          body := { s.body with raw := wtrim (s.data ++ wtrim l) },
          startedJSON := false }
      else if s.startedJSON then
        { s with data := s.data ++ wtrim l ++ [nl] }
      else s := by
    show stepT s (wtrim l) = _
    unfold stepT
    rw [hne, hg, hn, hd, hl]
    dsimp only
    rw [hlt, hirs, hsep, hh, hm, hbr]
    simp only [Bool.false_and, Bool.and_false, Bool.false_eq_true, if_false]
  constructor
  · intro hsj
    rw [hsj] at hred ⊢
    simp only [hc, Bool.not_true, Bool.and_false, Bool.and_true, Bool.true_and,
      Bool.and_self, Bool.false_eq_true, if_false, if_true] at hred
    exact ⟨hred, by rw [hred]⟩
  · intro hsj
    rw [hsj] at hred ⊢
    simp only [hc, Bool.not_false, Bool.and_true, Bool.true_and, Bool.and_false,
      Bool.and_self, Bool.false_eq_true, if_false, if_true] at hred
    obtain ⟨k, v, hkv⟩ := splitFirst_isSome ':' (wtrim l) hc
    rw [hkv] at hred
    dsimp only at hred
    exact ⟨k, v, hkv, hred, by rw [hred]⟩

/-- Witness for C3 (amended): a colon line that begins with the
character LT but lacks the script-open token is not a script-start line;
outside JSON-body mode it is parsed into the header list with the value
trimmed, and the body text is untouched. -/
theorem c3_colon_lines_witness :
    ∃ k v, splitFirst ':' (wtrim (str "<a: b")) = some (k, v) ∧
      step initState (str "<a: b") =
        { initState with headers := initState.headers ++
          [{ key := wtrim k, value := wtrim v, htype := str "text" }] } ∧
      (step initState (str "<a: b")).data = initState.data :=
  (c3_colon_lines initState (str "<a: b")
    (by decide) (by decide) (by decide) (by decide) (by decide) (by decide)
    (by decide) (by decide) (by decide) (by decide) (by decide)).2 rfl

/-- Counterexample for C3 as stated: while JSON-body mode is active, a
line containing a colon that begins with a hash is classified as a
comment before the body-continuation case is reached: it is dropped
entirely, not appended to the accumulating body text. -/
theorem c3_counterexample :
    (runLines initState [str "POST https://a.b/c", [lb]]).startedJSON = true ∧
    containsCh ':' (wtrim (str "# note: x")) = true ∧
    (step (runLines initState [str "POST https://a.b/c", [lb]]) (str "# note: x")).data =
      (runLines initState [str "POST https://a.b/c", [lb]]).data ∧
    ¬ ((step (runLines initState [str "POST https://a.b/c", [lb]]) (str "# note: x")).data =
       (runLines initState [str "POST https://a.b/c", [lb]]).data ++
         wtrim (str "# note: x") ++ [nl]) := by
  refine ⟨by decide, by decide, by decide, by decide⟩

/-- Claim C9 (amended): while multi-line script mode is active, a line
that does not match the earlier classifications (blank is harmless, and
group/name/description/local-variable annotations and script-start lines
are excluded) and does not contain the script-close token only has the
effect of scanning for the variable-setter pattern: the step equals the
state with the request-variable table updated by that scan and every
other field unchanged — in particular the line is never treated as a
header, body content, name annotation, description annotation, or
local-variable declaration. -/
theorem c9_script_lines (s : PState) (l : Str)
    (hirs : s.inRequestScript = true)
    (hg : groupMatch (wtrim l) = none) (hn : nameMatch (wtrim l) = none)
    (hd : descMatch (wtrim l) = none) (hl : localVarMatch (wtrim l) = none)
    (hlt : (hasPrefixS (str "<") (wtrim l) && containsSub [lb, '%'] (wtrim l)) = false)
    (hclose : containsSub ['%', rb] (wtrim l) = false) :
    step s l = { s with requestVariables := applySetter (wtrim l) s.requestVariables } := by
  by_cases hne : (wtrim l).isEmpty = true
  · have hnil : wtrim l = [] := by
      cases hx : wtrim l with
      | nil => rfl
      | cons a t =>
        rw [hx] at hne
        exact absurd hne (by simp)
    show stepT s (wtrim l) = _
    rw [hnil]
    rfl
  have hne' : (wtrim l).isEmpty = false := by
    cases hx : (wtrim l).isEmpty with
    | false => rfl
    | true => exact absurd hx hne
  show stepT s (wtrim l) = _
  unfold stepT
  rw [hne', hg, hn, hd, hl]
  dsimp only
  rw [hlt, hclose]
  simp only [Bool.false_and, Bool.false_eq_true, if_false, hirs, if_true]

/-- Witness for C9 (amended): a setter call inside a multi-line script
block updates only the request-variable table. -/
theorem c9_script_lines_witness :
    step (runLines initState [str "GET https://a.b/c", str "< " ++ [lb, '%']])
        (str "  request.variables.set(\"uid\", \"7\")") =
      { runLines initState [str "GET https://a.b/c", str "< " ++ [lb, '%']] with
        requestVariables :=
          applySetter (wtrim (str "  request.variables.set(\"uid\", \"7\")"))
            (runLines initState
              [str "GET https://a.b/c", str "< " ++ [lb, '%']]).requestVariables } :=
  c9_script_lines (runLines initState [str "GET https://a.b/c", str "< " ++ [lb, '%']])
    (str "  request.variables.set(\"uid\", \"7\")")
    (by decide) (by decide) (by decide) (by decide) (by decide) (by decide) (by decide)

/-- Counterexample for C9 as stated: a line read while multi-line script
mode is active and before the close token, of the form of a description
annotation, is treated as a description annotation (the pending
description is set), contradicting the claim that such a line can only
record setter matches. -/
theorem c9_counterexample :
    (runLines initState [str "GET https://a.b/c", str "< " ++ [lb, '%']]).inRequestScript = true ∧
    containsSub ['%', rb] (wtrim (str "// note")) = false ∧
    (step (runLines initState [str "GET https://a.b/c", str "< " ++ [lb, '%']])
        (str "// note")).currentRequestDescription = str "note" ∧
    (step (runLines initState [str "GET https://a.b/c", str "< " ++ [lb, '%']])
        (str "// note")).requestVariables =
      (runLines initState [str "GET https://a.b/c", str "< " ++ [lb, '%']]).requestVariables := by
  refine ⟨by decide, by decide, by decide, by decide⟩

/-- `parseURL` never writes the raw field. -/
theorem parseURL_raw (rawURL : Str) (u : URL) (lv rv : List (Str × Str)) :
    (parseURL rawURL u lv rv).raw = u.raw := by
  unfold parseURL
  dsimp only
  repeat' split
  all_goals rfl

/-- The sealed item carries the query accumulator. -/
theorem sealItem_query (s : PState) :
    (sealItem s).request.url.query = s.query := by
  unfold sealItem
  split <;> split <;> rfl

/-- Reduction of one step on a method line, given the guard facts (all
of which hold for a verb followed by one space and a space-free URL
token). -/
theorem stepT_method_aux (s : PState) (v u : Str)
    (hirs : s.inRequestScript = false)
    (hne : (v ++ ' ' :: u).isEmpty = false)
    (hg : groupMatch (v ++ ' ' :: u) = none)
    (hn : nameMatch (v ++ ' ' :: u) = none)
    (hd : descMatch (v ++ ' ' :: u) = none)
    (hl : localVarMatch (v ++ ' ' :: u) = none)
    (hlt : hasPrefixS (str "<") (v ++ ' ' :: u) = false)
    (hsep : hasPrefixS (str "###") (v ++ ' ' :: u) = false)
    (hh : hasPrefixS (str "#") (v ++ ' ' :: u) = false)
    (hm : isMethodLine (v ++ ' ' :: u) = true)
    (hf : fields (v ++ ' ' :: u) = [v, u]) :
    stepT s (v ++ ' ' :: u) =
      { s with
        req := { s.req with method := v },
        url := parseURL u { s.url with raw := u } s.localVariables s.requestVariables,
        query := s.query ++ parseQueryParams u } := by
  unfold stepT
  rw [hne, hg, hn, hd, hl]
  dsimp only
  rw [hlt, hirs, hsep, hh, hm, hf]
  simp only [Bool.false_and, Bool.and_false, Bool.false_eq_true, if_false, if_true]

/-- Claim C10: when one request block contains two method lines, the
second overwrites the method and the raw URL of the accumulator, but the
query parameters parsed from the first URL are retained: the query
accumulator — and the query list of the request sealed from it — is the
concatenation of the query parameters of both URLs in encounter order. -/
theorem c10_double_method (s : PState) (l1 l2 v1 u1 v2 u2 : Str)
    (hirs : s.inRequestScript = false) (hq : s.query = [])
    (ht1 : wtrim l1 = v1 ++ ' ' :: u1) (hv1 : v1 ∈ verbs) (hu1 : u1 ≠ [])
    (husp1 : ∀ a ∈ u1, isSp a = false)
    (ht2 : wtrim l2 = v2 ++ ' ' :: u2) (hv2 : v2 ∈ verbs) (hu2 : u2 ≠ [])
    (husp2 : ∀ a ∈ u2, isSp a = false) :
    (step (step s l1) l2).req.method = v2 ∧
    (step (step s l1) l2).url.raw = u2 ∧
    (step (step s l1) l2).query = parseQueryParams u1 ++ parseQueryParams u2 ∧
    (sealItem (step (step s l1) l2)).request.url.query =
      parseQueryParams u1 ++ parseQueryParams u2 := by
  have hverbs : ∀ v ∈ verbs, (∀ a ∈ v, isSp a = false) ∧ v ≠ [] := by decide
  have haux : ∀ (t : PState) (v u : Str), v ∈ verbs → u ≠ [] →
      (∀ a ∈ u, isSp a = false) → t.inRequestScript = false →
      stepT t (v ++ ' ' :: u) =
        { t with
          req := { t.req with method := v },
          url := parseURL u { t.url with raw := u } t.localVariables t.requestVariables,
          query := t.query ++ parseQueryParams u } := by
    intro t v u hv hu husp hsc
    obtain ⟨c0, urest, rfl⟩ : ∃ c0 urest, u = c0 :: urest := by
      cases u with
      | nil => exact absurd rfl hu
      | cons c0 urest => exact ⟨c0, urest, rfl⟩
    have hf : fields (v ++ ' ' :: c0 :: urest) = [v, c0 :: urest] :=
      fields_two v (c0 :: urest) (hverbs v hv).1 (hverbs v hv).2 husp hu
    fin_cases hv
    · exact stepT_method_aux t (str "GET") (c0 :: urest) hsc rfl rfl rfl rfl rfl
        rfl rfl rfl rfl hf
    · exact stepT_method_aux t (str "PUT") (c0 :: urest) hsc rfl rfl rfl rfl rfl
        rfl rfl rfl rfl hf
    · exact stepT_method_aux t (str "POST") (c0 :: urest) hsc rfl rfl rfl rfl rfl
        rfl rfl rfl rfl hf
    · exact stepT_method_aux t (str "DELETE") (c0 :: urest) hsc rfl rfl rfl rfl rfl
        rfl rfl rfl rfl hf
    · exact stepT_method_aux t (str "OPTIONS") (c0 :: urest) hsc rfl rfl rfl rfl rfl
        rfl rfl rfl rfl hf
  have hstep1 : step s l1 =
      { s with
        req := { s.req with method := v1 },
        url := parseURL u1 { s.url with raw := u1 } s.localVariables s.requestVariables,
        query := s.query ++ parseQueryParams u1 } := by
    show stepT s (wtrim l1) = _
    rw [ht1]
    exact haux s v1 u1 hv1 hu1 husp1 hirs
  have hstep2 : step (step s l1) l2 =
      { step s l1 with
        req := { (step s l1).req with method := v2 },
        url := parseURL u2 { (step s l1).url with raw := u2 }
          (step s l1).localVariables (step s l1).requestVariables,
        query := (step s l1).query ++ parseQueryParams u2 } := by
    show stepT (step s l1) (wtrim l2) = _
    rw [ht2]
    exact haux (step s l1) v2 u2 hv2 hu2 husp2 (by rw [hstep1]; exact hirs)
  refine ⟨?_, ?_, ?_, ?_⟩
  · rw [hstep2]
  · rw [hstep2]
    exact parseURL_raw u2 _ _ _
  · rw [hstep2, hstep1]
    dsimp only
    rw [hq]
    simp
  · rw [sealItem_query, hstep2, hstep1]
    dsimp only
    rw [hq]
    simp

/-- Witness for C10: two concrete method lines in one block leave the
second method and URL but both URLs' query parameters, also in the item
sealed from that state. -/
theorem c10_double_method_witness :
    (step (step initState (str "GET http://a.b/c?x=1")) (str "POST http://d.e/f?y=2")).req.method = str "POST" ∧
    (step (step initState (str "GET http://a.b/c?x=1")) (str "POST http://d.e/f?y=2")).url.raw = str "http://d.e/f?y=2" ∧
    (step (step initState (str "GET http://a.b/c?x=1")) (str "POST http://d.e/f?y=2")).query =
      parseQueryParams (str "http://a.b/c?x=1") ++ parseQueryParams (str "http://d.e/f?y=2") ∧
    (sealItem (step (step initState (str "GET http://a.b/c?x=1")) (str "POST http://d.e/f?y=2"))).request.url.query =
      parseQueryParams (str "http://a.b/c?x=1") ++ parseQueryParams (str "http://d.e/f?y=2") :=
  c10_double_method initState (str "GET http://a.b/c?x=1") (str "POST http://d.e/f?y=2")
    (str "GET") (str "http://a.b/c?x=1") (str "POST") (str "http://d.e/f?y=2")
    (by decide) (by decide) (by decide) (by decide) (by decide) (by decide)
    (by decide) (by decide) (by decide) (by decide)

/-- Fuel-driven worker of `substituteVariables`: rebuilds the text,
replacing every variable reference (matched exactly as in `scanVars`)
with its value from the table, or leaving the reference in place when
the variable is unknown; every recursive call is on a strict suffix, so
fuel equal to the text length always suffices. -/
def substGoF (table : List (Str × Str)) : Nat → Str → Str
  | _, [] => []
  | 0, s => s
  | fuel + 1, c :: rest =>
    if c = lb then
      match rest with
      | r0 :: r1 =>
        if r0 = lb then
          let w := r1.takeWhile isWordChar
          match r1.dropWhile isWordChar with
          | d0 :: d1 :: r2 =>
            if d0 = rb ∧ d1 = rb ∧ !w.isEmpty then
              (match lookupA table w with
               | some v => v
               | none => lb :: lb :: (w ++ [rb, rb])) ++ substGoF table fuel r2
            else c :: substGoF table fuel rest
          | _ => c :: substGoF table fuel rest
        else c :: substGoF table fuel rest
      | [] => [c]
    else c :: substGoF table fuel rest

/-- `substituteVariables` of the separator-name variant: no substitution
when the environment is absent or has no table for the active
environment name. -/
def substituteVariables (text : Str) (env : Option Environment) (envName : Str) : Str :=
  match env with
  | none => text
  | some e =>
    match lookupA e envName with
    | none => text
    | some table => substGoF table text.length text

namespace V2

/-- Decomposed URL of the separator-name variant (no path variables). -/
structure URL where
  raw : Str := []
  protocol : Str := []
  host : List Str := []
  path : List Str := []
  query : List QueryParam := []
deriving DecidableEq

/-- Request of the separator-name variant. -/
structure Request where
  method : Str := []
  header : List Header := []
  body : Body := {}
  url : URL := {}
deriving DecidableEq

/-- Item of the separator-name variant (flat: name and request only). -/
structure Item where
  name : Str := []
  request : Request := {}
deriving DecidableEq

/-- The loop state of the separator-name variant's scanning loop. -/
structure StateV where
  items : List Item := []
  item : Item := {}
  req : Request := {}
  headers : List Header := []
  body : Body := {}
  url : URL := {}
  query : List QueryParam := []
  data : Str := []
  count : Nat := 0
  startedJSON : Bool := false

/-- The item sealed on a separator line (or at end of input): the
accumulated name with the request fields attached. -/
def sealItem (s : StateV) : Item :=
  { s.item with
    request :=
      { s.req with
        header := s.headers
        body := s.body
        url := { s.url with query := s.query } } }

/-- The URL parsing of the separator-name variant (inline in the method
case; the standard branch only). -/
def v2parseURL (rawURL : Str) (u : URL) : URL :=
  if containsSub (str "://") rawURL then
    match splitOnSub (str "://") rawURL with
    | protocol :: c1 :: _ =>
      let u1 := { u with protocol := protocol }
      let cleanURL := if containsCh '?' c1 then (splitOnCh '?' c1).headD [] else c1
      if containsCh '/' cleanURL then
        match splitOnCh '/' cleanURL with
        | h :: rest =>
          let u2 := { u1 with host := splitOnCh '.' h }
          if rest.isEmpty then u2 else { u2 with path := rest }
        | [] => u1
      else { u1 with host := splitOnCh '.' cleanURL }
    | _ => u
  else
    match splitOnCh '/' rawURL with
    | h :: _ => { u with host := splitOnCh '.' h }
    | [] => u

/-- One iteration of the separator-name variant's scanning loop on the
already-trimmed line, following the cases of its switch in order. -/
def stepT (env : Option Environment) (s : StateV) (line : Str) : StateV :=
  if line.isEmpty || hasPrefixS (str "# ") line || hasPrefixS (str "//") line then s
  else if hasPrefixS (str "###") line && !hasPrefixS (str "####") line then
    let s1 := if !s.req.method.isEmpty && !s.url.raw.isEmpty then
        { s with items := s.items ++ [sealItem s] }
      else s
    let s2 := { s1 with
      item := {}, req := {}, headers := [], body := {},
      url := {}, query := [], data := [], startedJSON := false }
    let requestName := wtrim (line.drop 3)
    if requestName.isEmpty then
      { s2 with count := s2.count + 1, item := { name := requestN (s2.count + 1) } }
    else
      { s2 with item := { name := requestName } }
  else if isMethodLine line then
    match fields line with
    | m :: u0 :: _ =>
      let rawURL := substituteVariables u0 env envDev
      let s1 := { s with req := { s.req with method := m } }
      let s2 := if s1.item.name.isEmpty then
          { s1 with count := s1.count + 1,
                    item := { s1.item with name := requestN (s1.count + 1) } }
        else s1
      { s2 with url := v2parseURL rawURL { s2.url with raw := rawURL },
                query := s2.query ++ parseQueryParams rawURL }
    | _ => s
  else if hasPrefixS [lb] line then
    let b1 : Body := { s.body with mode := str "raw", optionsLang := some (str "json") }
    if hasSuffixS [rb] line then
      { s with body := { b1 with raw := substituteVariables (wtrim line) env envDev },
               startedJSON := false }
    else
      { s with body := b1, startedJSON := true, data := s.data ++ line ++ [nl] }
  else if containsCh ':' line && !s.startedJSON then
    match splitFirst ':' line with
    | some kv =>
      { s with headers := s.headers ++
          [{ key := wtrim kv.1,
             value := substituteVariables (wtrim kv.2) env envDev,
             htype := str "text" }] }
    | none => s
  else if containsCh ':' line && s.startedJSON then
    { s with data := s.data ++ line ++ [nl] }
  else if hasSuffixS [rb] line && s.startedJSON then
    { s with data := s.data ++ line,
             body := { s.body with
               raw := substituteVariables (wtrim (s.data ++ line)) env envDev },
             startedJSON := false }
  else if s.startedJSON then
    { s with data := s.data ++ line ++ [nl] }
  else s

/-- One iteration on a raw line (the loop trims every line first). -/
def step (env : Option Environment) (s : StateV) (raw : Str) : StateV :=
  stepT env s (wtrim raw)

/-- The separator-name variant's scanning loop. -/
def runLines (env : Option Environment) (s : StateV) (lines : List Str) : StateV :=
  lines.foldl (step env) s

end V2

/-- A string with the separator prefix decomposes into three hashes and
a remainder. -/
theorem prefix3_decomp (t : Str) (h : hasPrefixS (str "###") t = true) :
    ∃ r, t = '#' :: '#' :: '#' :: r := by
  have h' : List.isPrefixOf ['#', '#', '#'] t = true := h
  cases t with
  | nil => exact absurd h' (by decide)
  | cons a t1 =>
    cases t1 with
    | nil => exact absurd h' (by simp [List.isPrefixOf])
    | cons b t2 =>
      cases t2 with
      | nil => exact absurd h' (by simp [List.isPrefixOf])
      | cons c r =>
        simp only [List.isPrefixOf, Bool.and_eq_true, beq_iff_eq] at h'
        exact ⟨r, by rw [← h'.1, ← h'.2.1, ← h'.2.2.1]⟩

/-- A separator line carrying trailing text names the upcoming request
with the trimmed trailing text. -/
theorem v2_guard1_hash (x : Str) :
    (('#' :: '#' :: '#' :: x : Str).isEmpty ||
     hasPrefixS (str "# ") ('#' :: '#' :: '#' :: x) ||
     hasPrefixS (str "//") ('#' :: '#' :: '#' :: x)) = false := by
  simp [hasPrefixS, str, List.isPrefixOf, List.isEmpty]

/-- Three leading hashes always satisfy the separator prefix test. -/
theorem hasPrefix3_cons (x : Str) :
    hasPrefixS (str "###") ('#' :: '#' :: '#' :: x) = true := by
  simp [hasPrefixS, str, List.isPrefixOf]

/-- A separator line carrying trailing text names the upcoming request
with the trimmed trailing text. -/
theorem v2_sep_named (env : Option Environment) (s : V2.StateV) (l : Str)
    (hpre : hasPrefixS (str "###") (wtrim l) = true)
    (hpre4 : hasPrefixS (str "####") (wtrim l) = false)
    (hnm : (wtrim ((wtrim l).drop 3)).isEmpty = false) :
    (V2.step env s l).item.name = wtrim ((wtrim l).drop 3) := by
  obtain ⟨r, hr⟩ := prefix3_decomp (wtrim l) hpre
  show (V2.stepT env s (wtrim l)).item.name = wtrim ((wtrim l).drop 3)
  rw [hr] at hpre4 hnm ⊢
  unfold V2.stepT
  simp only [v2_guard1_hash, hasPrefix3_cons, hpre4, Bool.not_false,
    Bool.and_true, Bool.false_eq_true, if_false, if_true]
  simp only [List.drop_succ_cons, List.drop_zero] at hnm ⊢
  rw [hnm]
  simp only [Bool.false_eq_true, if_false]

/-- A bare separator line seals under the shared validity condition and
assigns the generated sequential name to the upcoming request. -/
theorem v2_sep_bare (env : Option Environment) (s : V2.StateV) :
    ((V2.step env s (str "###")).items =
      if !s.req.method.isEmpty && !s.url.raw.isEmpty
      then s.items ++ [V2.sealItem s] else s.items) ∧
    (V2.step env s (str "###")).item.name = requestN (s.count + 1) ∧
    (V2.step env s (str "###")).count = s.count + 1 := by
  show ((V2.stepT env s (str "###")).items = _) ∧
    ((V2.stepT env s (str "###")).item.name = _) ∧
    ((V2.stepT env s (str "###")).count = _)
  unfold V2.stepT
  simp only [show ((str "###").isEmpty || hasPrefixS (str "# ") (str "###") ||
      hasPrefixS (str "//") (str "###")) = false from rfl,
    show (hasPrefixS (str "###") (str "###") &&
      !hasPrefixS (str "####") (str "###")) = true from rfl,
    Bool.false_eq_true, if_false, if_true]
  by_cases hvalid : (!s.req.method.isEmpty && !s.url.raw.isEmpty) = true
  · rw [hvalid]
    simp only [if_true]
    exact ⟨rfl, rfl, rfl⟩
  · have hvalid' : (!s.req.method.isEmpty && !s.url.raw.isEmpty) = false := by
      cases hx : (!s.req.method.isEmpty && !s.url.raw.isEmpty) with
      | false => rfl
      | true => exact absurd hx hvalid
    rw [hvalid']
    simp only [Bool.false_eq_true, if_false]
    exact ⟨rfl, rfl, rfl⟩

/-- Lines that are not separator lines never change an already-assigned
non-empty request name. -/
theorem v2_name_stable (env : Option Environment) (s : V2.StateV) (l : Str)
    (hname : s.item.name ≠ [])
    (hsep : (hasPrefixS (str "###") (wtrim l) &&
      !hasPrefixS (str "####") (wtrim l)) = false) :
    (V2.step env s l).item.name = s.item.name := by
  show (V2.stepT env s (wtrim l)).item.name = s.item.name
  unfold V2.stepT
  by_cases c0 : ((wtrim l).isEmpty || hasPrefixS (str "# ") (wtrim l) ||
      hasPrefixS (str "//") (wtrim l)) = true
  · rw [if_pos c0]
  rw [if_neg c0, if_neg (by rw [hsep]; exact Bool.false_ne_true)]
  by_cases c1 : isMethodLine (wtrim l) = true
  · rw [if_pos c1]
    cases fields (wtrim l) with
    | nil => rfl
    | cons m rest =>
      cases rest with
      | nil => rfl
      | cons u0 rest2 =>
        dsimp only
        rw [isEmpty_false hname]
        simp only [Bool.false_eq_true, if_false]
  rw [if_neg c1]
  by_cases c2 : hasPrefixS [lb] (wtrim l) = true
  · rw [if_pos c2]
    split <;> rfl
  rw [if_neg c2]
  by_cases c3 : (containsCh ':' (wtrim l) && !s.startedJSON) = true
  · rw [if_pos c3]
    cases splitFirst ':' (wtrim l) with
    | some kv => rfl
    | none => rfl
  rw [if_neg c3]
  by_cases c4 : (containsCh ':' (wtrim l) && s.startedJSON) = true
  · rw [if_pos c4]
  rw [if_neg c4]
  by_cases c5 : (hasSuffixS [rb] (wtrim l) && s.startedJSON) = true
  · rw [if_pos c5]
  rw [if_neg c5]
  by_cases c6 : s.startedJSON = true
  · rw [if_pos c6]
  rw [if_neg c6]

/-- The loop over a block without separator lines never changes an
already-assigned non-empty request name. -/
theorem v2_name_stable_run (env : Option Environment) (block : List Str)
    (s : V2.StateV) (hname : s.item.name ≠ [])
    (hblock : ∀ b ∈ block, (hasPrefixS (str "###") (wtrim b) &&
      !hasPrefixS (str "####") (wtrim b)) = false) :
    (V2.runLines env s block).item.name = s.item.name := by
  induction block generalizing s with
  | nil => rfl
  | cons b rest ih =>
    have hb := v2_name_stable env s b hname (hblock b (List.mem_cons_self b rest))
    have ih' := ih (V2.step env s b) (by rw [hb]; exact hname)
      (fun x hx => hblock x (List.mem_cons_of_mem b hx))
    show (V2.runLines env (V2.step env s b) rest).item.name = s.item.name
    rw [ih', hb]

/-- Reduction of the separator-name variant's method case for the
request name: with no name pending, the method line assigns the
generated sequential name. -/
theorem v2_method_aux (env : Option Environment) (s : V2.StateV) (v u : Str)
    (hname : s.item.name = [])
    (hg1 : ((v ++ ' ' :: u : Str).isEmpty || hasPrefixS (str "# ") (v ++ ' ' :: u) ||
      hasPrefixS (str "//") (v ++ ' ' :: u)) = false)
    (hsep : hasPrefixS (str "###") (v ++ ' ' :: u) = false)
    (hm : isMethodLine (v ++ ' ' :: u) = true)
    (hf : fields (v ++ ' ' :: u) = [v, u]) :
    (V2.stepT env s (v ++ ' ' :: u)).item.name = requestN (s.count + 1) := by
  unfold V2.stepT
  rw [hg1, hsep, hm, hf]
  simp only [Bool.false_and, Bool.false_eq_true, if_false, if_true]
  rw [hname]
  simp only [List.isEmpty_nil, if_true]

/-- Claim C7: in the separator-name variant, trailing text on a
separator line becomes the display name of the request block that
follows it (it survives every non-separator line of the block and is the
name of the item sealed at the next separator), and a request with no
explicit name receives a generated sequential name of the form
request-N: a bare separator assigns request-(count+1) to the upcoming
request, and a method line reached with no name pending does the same. -/
theorem c7_separator_names :
    (∀ (env : Option Environment) (s : V2.StateV) (l : Str) (block : List Str),
      hasPrefixS (str "###") (wtrim l) = true →
      hasPrefixS (str "####") (wtrim l) = false →
      (wtrim ((wtrim l).drop 3)).isEmpty = false →
      (∀ b ∈ block, (hasPrefixS (str "###") (wtrim b) &&
        !hasPrefixS (str "####") (wtrim b)) = false) →
      (V2.runLines env (V2.step env s l) block).item.name =
        wtrim ((wtrim l).drop 3) ∧
      ((!(V2.runLines env (V2.step env s l) block).req.method.isEmpty &&
        !(V2.runLines env (V2.step env s l) block).url.raw.isEmpty) = true →
        (V2.step env (V2.runLines env (V2.step env s l) block) (str "###")).items =
          (V2.runLines env (V2.step env s l) block).items ++
            [V2.sealItem (V2.runLines env (V2.step env s l) block)] ∧
        (V2.sealItem (V2.runLines env (V2.step env s l) block)).name =
          wtrim ((wtrim l).drop 3))) ∧
    (∀ (env : Option Environment) (s : V2.StateV),
      (V2.step env s (str "###")).item.name = requestN (s.count + 1) ∧
      (V2.step env s (str "###")).count = s.count + 1) ∧
    (∀ (env : Option Environment) (s : V2.StateV) (l v u : Str),
      s.item.name = [] → wtrim l = v ++ ' ' :: u → v ∈ verbs → u ≠ [] →
      (∀ a ∈ u, isSp a = false) →
      (V2.step env s l).item.name = requestN (s.count + 1)) := by
  refine ⟨?_, ?_, ?_⟩
  · intro env s l block hpre hpre4 hnm hblock
    have hn1 := v2_sep_named env s l hpre hpre4 hnm
    have hne : (V2.step env s l).item.name ≠ [] := by
      rw [hn1]
      exact ne_of_isEmpty_false hnm
    have hrun := v2_name_stable_run env block (V2.step env s l) hne hblock
    constructor
    · rw [hrun, hn1]
    · intro hvalid
      have hb := v2_sep_bare env (V2.runLines env (V2.step env s l) block)
      constructor
      · rw [hb.1, hvalid, if_pos rfl]
      · rw [show ∀ t : V2.StateV, (V2.sealItem t).name = t.item.name
          from fun t => rfl]
        rw [hrun, hn1]
  · exact fun env s => ⟨(v2_sep_bare env s).2.1, (v2_sep_bare env s).2.2⟩
  · intro env s l v u hname ht hv hu husp
    show (V2.stepT env s (wtrim l)).item.name = requestN (s.count + 1)
    rw [ht]
    obtain ⟨c0, urest, rfl⟩ : ∃ c0 urest, u = c0 :: urest := by
      cases u with
      | nil => exact absurd rfl hu
      | cons c0 urest => exact ⟨c0, urest, rfl⟩
    have hverbs : ∀ w ∈ verbs, (∀ a ∈ w, isSp a = false) ∧ w ≠ [] := by decide
    have hf : fields (v ++ ' ' :: c0 :: urest) = [v, c0 :: urest] :=
      fields_two v (c0 :: urest) (hverbs v hv).1 (hverbs v hv).2 husp hu
    fin_cases hv
    · exact v2_method_aux env s (str "GET") (c0 :: urest) hname rfl rfl rfl hf
    · exact v2_method_aux env s (str "PUT") (c0 :: urest) hname rfl rfl rfl hf
    · exact v2_method_aux env s (str "POST") (c0 :: urest) hname rfl rfl rfl hf
    · exact v2_method_aux env s (str "DELETE") (c0 :: urest) hname rfl rfl rfl hf
    · exact v2_method_aux env s (str "OPTIONS") (c0 :: urest) hname rfl rfl rfl hf

/-- Witness for C7: a concrete separator line named `login` names the
request of the following block, which seals under that name at the next
separator. -/
theorem c7_separator_names_witness :
    (V2.runLines none (V2.step none {} (str "### login"))
      [str "GET http://a.b/c"]).item.name =
        wtrim ((wtrim (str "### login")).drop 3) ∧
    ((!(V2.runLines none (V2.step none {} (str "### login"))
        [str "GET http://a.b/c"]).req.method.isEmpty &&
      !(V2.runLines none (V2.step none {} (str "### login"))
        [str "GET http://a.b/c"]).url.raw.isEmpty) = true →
      (V2.step none (V2.runLines none (V2.step none {} (str "### login"))
          [str "GET http://a.b/c"]) (str "###")).items =
        (V2.runLines none (V2.step none {} (str "### login"))
          [str "GET http://a.b/c"]).items ++
          [V2.sealItem (V2.runLines none (V2.step none {} (str "### login"))
            [str "GET http://a.b/c"])] ∧
      (V2.sealItem (V2.runLines none (V2.step none {} (str "### login"))
        [str "GET http://a.b/c"])).name = wtrim ((wtrim (str "### login")).drop 3)) :=
  c7_separator_names.1 none {} (str "### login") [str "GET http://a.b/c"]
    (by decide) (by decide) (by decide) (by decide)
